import Mathlib

/-!
Shallow embedding of the allocation pipeline of `distribute_products.py`:
the `distribution_sql` statement (deficit computation, first-pass
proportional allocation, remainder distribution) followed by the
`adjustment_sql` statement (threshold pruning and leftover reallocation).

Table rows are modelled as structures; `NUMERIC` columns are rationals,
`INT`/`BIGINT` columns are integers, UUID keys are opaque naturals.
`FLOOR` on numeric is the exact rational floor; the PostgreSQL casts
`numeric -> bigint` / `numeric -> int` round half away from zero.
The unspecified `ORDER BY priority DESC` tie-break is realised by a fixed
insertion sort (one admissible execution of the nondeterministic query).
-/

namespace Distribute

/-- Row of the `branch_products` table. -/
structure BPRow where
  product_id : Nat
  branch_id  : Nat
  stock      : ℚ
  reserve    : ℚ
  transit    : ℚ
deriving DecidableEq

/-- Row of the `rc_products` table (central stock). -/
structure RCRow where
  product_id : Nat
  branch_id  : Nat
  stock      : ℚ
  reserve    : ℚ
  transit    : ℚ
deriving DecidableEq

/-- Row of the `needs` table. -/
structure NeedRow where
  branch_id  : Nat
  product_id : Nat
  need       : ℤ
deriving DecidableEq

/-- Row of the `stores` table. -/
structure StoreRow where
  branch_id    : Nat
  priority     : ℤ
  min_shipment : ℤ
deriving DecidableEq

/-- Row of the `shipments` output table. -/
structure ShipmentRow where
  branch_id    : Nat
  product_id   : Nat
  shipment_qty : ℤ
deriving DecidableEq

/-- One input snapshot: the four relations the two SQL statements read. -/
structure Input where
  branch_products : List BPRow
  rc_products     : List RCRow
  needs           : List NeedRow
  stores          : List StoreRow

/-- PostgreSQL cast of an exact `numeric` value to an integer column
(`::BIGINT`, `::INT`, or the assignment cast on `INSERT`): round to the
nearest integer, ties away from zero. -/
def pgNumericToInt (q : ℚ) : ℤ :=
  if 0 ≤ q then Int.floor (q + 1/2) else - Int.floor (-q + 1/2)

/-- Row of the three-table join `branch_products JOIN needs JOIN stores`
shared by the `available` CTE of `distribution_sql` and the `avail` CTE of
`adjustment_sql`, carrying `GREATEST(0, need - (stock + transit - reserve))`
as the deficit. -/
structure JoinedRow where
  product_id : Nat
  branch_id  : Nat
  deficit    : ℚ
  priority   : ℤ
deriving DecidableEq

/-- The join underlying both CTEs (inner joins on the table keys). -/
def joined (inp : Input) : List JoinedRow :=
  inp.branch_products.flatMap fun bp =>
    (inp.needs.filter fun n =>
        n.branch_id == bp.branch_id && n.product_id == bp.product_id).flatMap fun n =>
      (inp.stores.filter fun s => s.branch_id == bp.branch_id).map fun s =>
        { product_id := bp.product_id
          branch_id  := bp.branch_id
          deficit    := max 0 ((n.need : ℚ) - (bp.stock + bp.transit - bp.reserve))
          priority   := s.priority }

/-- The `rc_products` rows of one product. -/
def rcRows (inp : Input) (p : Nat) : List RCRow :=
  inp.rc_products.filter fun r => r.product_id == p

/-- The `rc` CTE: `SUM(stock)::BIGINT` per product; `none` when the product
has no `rc_products` rows (so it drops out of the later joins). -/
def rcTotalStock (inp : Input) (p : Nat) : Option ℤ :=
  if rcRows inp p = [] then none
  else some (pgNumericToInt ((rcRows inp p).map (fun r => r.stock)).sum)

/-- The rows of the `available` CTE belonging to one product. -/
def availP (inp : Input) (p : Nat) : List JoinedRow :=
  (joined inp).filter fun j => j.product_id == p

/-- The `sum_weights` CTE: `SUM(deficit * priority)` per product. -/
def totalWeight (inp : Input) (p : Nat) : ℚ :=
  ((availP inp p).map fun a => a.deficit * (a.priority : ℚ)).sum

/-- Row of the `first_pass` CTE. -/
structure FPRow where
  product_id : Nat
  branch_id  : Nat
  deficit    : ℚ
  priority   : ℤ
  shipped    : ℚ
deriving DecidableEq

/-- The `first_pass` shipped expression:
`LEAST(COALESCE(FLOOR(total_stock * (deficit*priority)::numeric
/ NULLIF(total_weight,0))::int, 0), deficit)`. -/
def shipped1 (S : ℤ) (W : ℚ) (deficit : ℚ) (priority : ℤ) : ℚ :=
  min (((if W = 0 then 0
         else Int.floor ((S : ℚ) * (deficit * (priority : ℚ)) / W)) : ℤ) : ℚ)
    deficit

/-- The `first_pass` CTE restricted to one product (the join with `rc`
drops products without central-stock rows). -/
def firstPassP (inp : Input) (p : Nat) : List FPRow :=
  match rcTotalStock inp p with
  | none => []
  | some S =>
    (availP inp p).map fun a =>
      { product_id := p
        branch_id  := a.branch_id
        deficit    := a.deficit
        priority   := a.priority
        shipped    := shipped1 S (totalWeight inp p) a.deficit a.priority }

/-- The `remaining` CTE for one product: `total_stock - SUM(shipped)`. -/
def remainingP (inp : Input) (p : Nat) (S : ℤ) : ℚ :=
  (S : ℚ) - ((firstPassP inp p).map fun r => r.shipped).sum

/-- Insert a row into a list sorted by `pr` descending (stable realisation
of the unspecified `ORDER BY ... DESC` tie-break). -/
def insertDesc {α : Type} (pr : α → ℤ) (x : α) : List α → List α
  | [] => [x]
  | y :: ys => if pr y < pr x then x :: y :: ys else y :: insertDesc pr x ys

/-- Insertion sort by `pr` descending. -/
def sortDesc {α : Type} (pr : α → ℤ) : List α → List α
  | [] => []
  | x :: xs => insertDesc pr x (sortDesc pr xs)

/-- The `second_pass` CTE body: pair every row with
`shipped + CASE WHEN ROW_NUMBER() <= remaining THEN 1 ELSE 0 END`,
ranks counted from `k`. -/
def rankQty (rem : ℚ) : Nat → List FPRow → List (FPRow × ℚ)
  | _, [] => []
  | k, r :: rs =>
    (r, r.shipped + if (k : ℚ) ≤ rem then 1 else 0) :: rankQty rem (k+1) rs

/-- The rows the first `INSERT INTO shipments` statement materialises for
one product: `second_pass` filtered by `shipment_qty > 0`, the numeric
quantity cast to the `INT` column. -/
def distRowsP (inp : Input) (p : Nat) : List ShipmentRow :=
  match rcTotalStock inp p with
  | none => []
  | some S =>
    ((rankQty (remainingP inp p S) 1
        (sortDesc (fun r => r.priority) (firstPassP inp p))).filter fun rq =>
      0 < rq.2).map fun rq =>
      { branch_id := rq.1.branch_id, product_id := p
        shipment_qty := pgNumericToInt rq.2 }

/-- The product partitions of the distribution statement. -/
def productIds (inp : Input) : List Nat :=
  ((joined inp).map fun j => j.product_id).dedup

/-- Contents of the `shipments` table after `distribution_sql`. -/
def shipments1 (inp : Input) : List ShipmentRow :=
  (productIds inp).flatMap fun p => distRowsP inp p

/-- The `branch_sums` aggregate of one branch over a shipment list. -/
def totalShipment (rows : List ShipmentRow) (b : Nat) : ℤ :=
  ((rows.filter fun r => r.branch_id == b).map fun r => r.shipment_qty).sum

/-- Membership of a branch in the `to_zero` CTE: it has shipment rows
(a `GROUP BY` group) and some matching `stores` row has
`total_shipment < min_shipment`. -/
def prunedB (inp : Input) (rows : List ShipmentRow) (b : Nat) : Bool :=
  (rows.any fun r => r.branch_id == b) &&
  (inp.stores.any fun s =>
    s.branch_id == b && decide (totalShipment rows b < s.min_shipment))

/-- Contents of `shipments` after the `DELETE` of `adjustment_sql`. -/
def shipments2 (inp : Input) : List ShipmentRow :=
  (shipments1 inp).filter fun r => ! prunedB inp (shipments1 inp) r.branch_id

/-- The rows the `DELETE ... RETURNING` clause (`zeroed` CTE) returns. -/
def zeroedRows (inp : Input) : List ShipmentRow :=
  (shipments1 inp).filter fun r => prunedB inp (shipments1 inp) r.branch_id

/-- The `leftovers` CTE: per-product sum of the deleted quantities. -/
def leftoverOf (inp : Input) (p : Nat) : ℤ :=
  (((zeroedRows inp).filter fun r => r.product_id == p).map
    fun r => r.shipment_qty).sum

/-- The products that have a `leftovers` group. -/
def zeroProducts (inp : Input) : List Nat :=
  ((zeroedRows inp).map fun r => r.product_id).dedup

/-- The `avail` CTE of `adjustment_sql`: the same join, restricted by
`WHERE GREATEST(0, need - (stock + transit - reserve)) > 0`. -/
def avail2 (inp : Input) : List JoinedRow :=
  (joined inp).filter fun j => 0 < j.deficit

/-- The `alloc` CTE body for one product: rank the eligible rows and give
`CASE WHEN ROW_NUMBER() <= leftover THEN 1 ELSE 0 END`, ranks from `k`. -/
def allocQty (l : ℤ) : Nat → List JoinedRow → List (JoinedRow × ℤ)
  | _, [] => []
  | k, a :: as => (a, if (k : ℤ) ≤ l then 1 else 0) :: allocQty l (k+1) as

/-- The rows the second `INSERT INTO shipments` materialises for one
product: `alloc` filtered by `add_qty > 0`. -/
def allocRowsP (inp : Input) (p : Nat) : List ShipmentRow :=
  ((allocQty (leftoverOf inp p) 1
      (sortDesc (fun j => j.priority)
        ((avail2 inp).filter fun j => j.product_id == p))).filter fun aq =>
    0 < aq.2).map fun aq =>
    { branch_id := aq.1.branch_id, product_id := p, shipment_qty := aq.2 }

/-- All rows added by the leftover-reallocation insert. -/
def adjustAdds (inp : Input) : List ShipmentRow :=
  (zeroProducts inp).flatMap fun p => allocRowsP inp p

/-- Contents of the `shipments` table when `distribute()` finishes. -/
def finalShipments (inp : Input) : List ShipmentRow :=
  shipments2 inp ++ adjustAdds inp

/-- Sum of `shipment_qty` over the rows of one product. -/
def productTotal (rows : List ShipmentRow) (p : Nat) : ℤ :=
  ((rows.filter fun r => r.product_id == p).map fun r => r.shipment_qty).sum

/-- The rows of one (branch, product) pair. -/
def pairRows (rows : List ShipmentRow) (b p : Nat) : List ShipmentRow :=
  rows.filter fun r => r.branch_id == b && r.product_id == p

/-- Sum of `shipment_qty` over the rows of one (branch, product) pair. -/
def pairTotal (rows : List ShipmentRow) (b p : Nat) : ℤ :=
  ((pairRows rows b p).map fun r => r.shipment_qty).sum

/-- A product's total central stock: the exact sum of `rc_products.stock`
over all its central locations (the quantity §3 of the spec names). -/
def totalCentralStock (inp : Input) (p : Nat) : ℚ :=
  ((rcRows inp p).map fun r => r.stock).sum

/-- The non-negativity hypothesis of the sum-cap claims: non-negative
stock (branch and central), need and priority values. -/
def NonnegInput (inp : Input) : Prop :=
  (∀ r ∈ inp.branch_products, 0 ≤ r.stock) ∧
  (∀ r ∈ inp.rc_products, 0 ≤ r.stock) ∧
  (∀ n ∈ inp.needs, 0 ≤ n.need) ∧
  (∀ s ∈ inp.stores, 0 ≤ s.priority)

/-- A rational that is an integer (a `NUMERIC` holding a whole number). -/
def IsInt (q : ℚ) : Prop := q.den = 1

instance (q : ℚ) : Decidable (IsInt q) := by unfold IsInt; infer_instance

/-- All `NUMERIC` input columns hold whole numbers. -/
def IntegralInput (inp : Input) : Prop :=
  (∀ r ∈ inp.branch_products, IsInt r.stock ∧ IsInt r.reserve ∧ IsInt r.transit) ∧
  (∀ r ∈ inp.rc_products, IsInt r.stock)

/-- Key-uniqueness of the four input tables, as their PRIMARY KEYs
guarantee. -/
def WF (inp : Input) : Prop :=
  (inp.branch_products.map fun r => (r.product_id, r.branch_id)).Nodup ∧
  (inp.needs.map fun n => (n.branch_id, n.product_id)).Nodup ∧
  (inp.stores.map fun s => s.branch_id).Nodup ∧
  (inp.rc_products.map fun r => (r.product_id, r.branch_id)).Nodup

instance (inp : Input) : Decidable (NonnegInput inp) :=
  inferInstanceAs (Decidable ((∀ r ∈ inp.branch_products, 0 ≤ r.stock) ∧
    (∀ r ∈ inp.rc_products, 0 ≤ r.stock) ∧
    (∀ n ∈ inp.needs, 0 ≤ n.need) ∧
    (∀ s ∈ inp.stores, 0 ≤ s.priority)))

instance (inp : Input) : Decidable (IntegralInput inp) :=
  inferInstanceAs (Decidable
    ((∀ r ∈ inp.branch_products, IsInt r.stock ∧ IsInt r.reserve ∧ IsInt r.transit) ∧
     (∀ r ∈ inp.rc_products, IsInt r.stock)))

instance (inp : Input) : Decidable (WF inp) :=
  inferInstanceAs (Decidable
    ((inp.branch_products.map fun r : BPRow => (r.product_id, r.branch_id)).Nodup ∧
     (inp.needs.map fun n : NeedRow => (n.branch_id, n.product_id)).Nodup ∧
     (inp.stores.map fun s : StoreRow => s.branch_id).Nodup ∧
     (inp.rc_products.map fun r : RCRow => (r.product_id, r.branch_id)).Nodup))

/-! ### Concrete inputs used in the counterexamples and witnesses -/

/-- Scenario-A-like input: one product with central stock 10, two branches
with deficits 5/5 and priorities 2/3, thresholds 1. -/
def winp : Input :=
  { branch_products := [⟨1, 1, 0, 0, 0⟩, ⟨1, 2, 0, 0, 0⟩]
    rc_products := [⟨1, 9, 10, 0, 0⟩]
    needs := [⟨1, 1, 5⟩, ⟨2, 1, 5⟩]
    stores := [⟨1, 2, 1⟩, ⟨2, 3, 1⟩] }

/-- Fractional branch stock 1/2 at two branches, central stock 2: the
insert casts 1.5 and 0.5 up to 2 and 1, three units shipped out of two. -/
def cex1 : Input :=
  { branch_products := [⟨1, 1, 1/2, 0, 0⟩, ⟨1, 2, 1/2, 0, 0⟩]
    rc_products := [⟨1, 99, 2, 0, 0⟩]
    needs := [⟨1, 1, 1⟩, ⟨2, 1, 1⟩]
    stores := [⟨1, 1, 1⟩, ⟨2, 1, 1⟩] }

/-- Branch 1 has deficit 0 but the highest priority; the remainder bonus
still hands it one unit. -/
def cex2 : Input :=
  { branch_products := [⟨1, 1, 0, 0, 0⟩, ⟨1, 2, 0, 0, 0⟩]
    rc_products := [⟨1, 99, 10, 0, 0⟩]
    needs := [⟨1, 1, 0⟩, ⟨2, 1, 5⟩]
    stores := [⟨1, 5, 1⟩, ⟨2, 2, 1⟩] }

/-- Fractional central stock 1/2: `SUM(stock)::BIGINT` rounds it up to 1
and the first pass ships a full unit. -/
def cex5 : Input :=
  { branch_products := [⟨1, 1, 0, 0, 0⟩]
    rc_products := [⟨1, 99, 1/2, 0, 0⟩]
    needs := [⟨1, 1, 1⟩]
    stores := [⟨1, 1, 1⟩] }

/-- A product whose only branch is fully stocked (total weight 0), with
central stock 1: the remainder bonus still materialises a row. -/
def cex6 : Input :=
  { branch_products := [⟨1, 1, 5, 0, 0⟩]
    rc_products := [⟨1, 99, 1, 0, 0⟩]
    needs := [⟨1, 1, 0⟩]
    stores := [⟨1, 1, 1⟩] }

/-- A negative branch stock: no validation rejects it; the deficit grows
by the missing unit and the run ships four units. -/
def cex7 : Input :=
  { branch_products := [⟨1, 1, -1, 0, 0⟩]
    rc_products := [⟨1, 99, 4, 0, 0⟩]
    needs := [⟨1, 1, 3⟩]
    stores := [⟨1, 1, 1⟩] }

/-- Fractional branch stock 3/5: the first product's quantity 2/5 passes
the `> 0` filter and the insert cast rounds it to a zero row; the second
product keeps the branch above its threshold. -/
def cex8 : Input :=
  { branch_products := [⟨1, 1, 3/5, 0, 0⟩, ⟨2, 1, 0, 0, 0⟩]
    rc_products := [⟨1, 99, 1, 0, 0⟩, ⟨2, 99, 3, 0, 0⟩]
    needs := [⟨1, 1, 1⟩, ⟨1, 2, 3⟩]
    stores := [⟨1, 1, 1⟩] }

/-- Branch 2 is pruned (4 < 10); its four units become leftover and the
reallocation appends a second row for branch 1 / product 1. -/
def cex9 : Input :=
  { branch_products := [⟨1, 1, 0, 0, 0⟩, ⟨1, 2, 0, 0, 0⟩]
    rc_products := [⟨1, 99, 10, 0, 0⟩]
    needs := [⟨1, 1, 5⟩, ⟨2, 1, 5⟩]
    stores := [⟨1, 3, 1⟩, ⟨2, 2, 10⟩] }

/-- Scenario B of the spec: central stock 11, deficits 5/5, priorities
2/3, parametrised by the two `min_shipment` thresholds. -/
def c10inp (m1 m2 : ℤ) : Input :=
  { branch_products := [⟨1, 1, 0, 0, 0⟩, ⟨1, 2, 0, 0, 0⟩]
    rc_products := [⟨1, 9, 11, 0, 0⟩]
    needs := [⟨1, 1, 5⟩, ⟨2, 1, 5⟩]
    stores := [⟨1, 2, m1⟩, ⟨2, 3, m2⟩] }

/-! ### Basic facts about the numeric primitives -/

theorem isInt_iff {q : ℚ} : IsInt q ↔ ∃ n : ℤ, q = (n : ℚ) := by
  constructor
  · intro h
    exact ⟨q.num, ((Rat.den_eq_one_iff q).mp h).symm⟩
  · rintro ⟨n, rfl⟩
    exact Rat.den_intCast n

theorem isInt_intCast (n : ℤ) : IsInt (n : ℚ) := isInt_iff.mpr ⟨n, rfl⟩

theorem isInt_zero : IsInt (0 : ℚ) := isInt_iff.mpr ⟨0, by norm_num⟩

theorem isInt_one : IsInt (1 : ℚ) := isInt_iff.mpr ⟨1, by norm_num⟩

theorem isInt_add {a b : ℚ} (ha : IsInt a) (hb : IsInt b) : IsInt (a + b) := by
  rcases isInt_iff.mp ha with ⟨m, rfl⟩
  rcases isInt_iff.mp hb with ⟨n, rfl⟩
  exact isInt_iff.mpr ⟨m + n, by push_cast; ring⟩

theorem isInt_neg {a : ℚ} (ha : IsInt a) : IsInt (-a) := by
  rcases isInt_iff.mp ha with ⟨m, rfl⟩
  exact isInt_iff.mpr ⟨-m, by push_cast; ring⟩

theorem isInt_sub {a b : ℚ} (ha : IsInt a) (hb : IsInt b) : IsInt (a - b) := by
  rw [sub_eq_add_neg]; exact isInt_add ha (isInt_neg hb)

theorem isInt_max {a b : ℚ} (ha : IsInt a) (hb : IsInt b) : IsInt (max a b) := by
  rcases le_total a b with h | h
  · rwa [max_eq_right h]
  · rwa [max_eq_left h]

theorem isInt_min {a b : ℚ} (ha : IsInt a) (hb : IsInt b) : IsInt (min a b) := by
  rcases le_total a b with h | h
  · rwa [min_eq_left h]
  · rwa [min_eq_right h]

theorem isInt_listSum {l : List ℚ} (h : ∀ q ∈ l, IsInt q) : IsInt l.sum := by
  induction l with
  | nil => simpa using isInt_zero
  | cons a t ih =>
    rw [List.sum_cons]
    exact isInt_add (h a (by simp)) (ih fun q hq => h q (by simp [hq]))

theorem pgNumericToInt_intCast (n : ℤ) : pgNumericToInt (n : ℚ) = n := by
  unfold pgNumericToInt
  split
  · rw [show ((n : ℚ) + 1/2) = ((1 : ℚ)/2 + n) by ring, Int.floor_add_int]
    norm_num
  · rw [show (-(n : ℚ) + 1/2) = ((1 : ℚ)/2 + ((-n : ℤ) : ℚ)) by push_cast; ring,
      Int.floor_add_int]
    norm_num

theorem pgNumericToInt_isInt {q : ℚ} (h : IsInt q) :
    (pgNumericToInt q : ℚ) = q := by
  rcases isInt_iff.mp h with ⟨n, rfl⟩
  rw [pgNumericToInt_intCast]

theorem pgNumericToInt_nonneg {q : ℚ} (h : 0 ≤ q) : 0 ≤ pgNumericToInt q := by
  unfold pgNumericToInt
  rw [if_pos h]
  exact Int.le_floor.mpr (by push_cast; linarith)

theorem pgNumericToInt_pos_of_isInt {q : ℚ} (hi : IsInt q) (h : 0 < q) :
    0 < pgNumericToInt q := by
  rcases isInt_iff.mp hi with ⟨n, rfl⟩
  rw [pgNumericToInt_intCast]
  exact_mod_cast h

/-! ### The insertion sort is a permutation -/

theorem perm_insertDesc {α : Type} (pr : α → ℤ) (x : α) (l : List α) :
    List.Perm (insertDesc pr x l) (x :: l) := by
  induction l with
  | nil => simp [insertDesc]
  | cons y ys ih =>
    rw [insertDesc]
    split
    · exact List.Perm.refl _
    · exact (List.Perm.cons y ih).trans (List.Perm.swap x y ys)

theorem perm_sortDesc {α : Type} (pr : α → ℤ) (l : List α) :
    List.Perm (sortDesc pr l) l := by
  induction l with
  | nil => simp [sortDesc]
  | cons x xs ih =>
    exact (perm_insertDesc pr x (sortDesc pr xs)).trans (List.Perm.cons x ih)

/-! ### Shape of the joined rows -/

theorem mem_joined_deficit {inp : Input} {j : JoinedRow} (hj : j ∈ joined inp) :
    ∃ need eff : ℚ, j.deficit = max 0 (need - eff) := by
  simp only [joined, List.mem_flatMap, List.mem_map] at hj
  obtain ⟨bp, _, n, _, s, _, rfl⟩ := hj
  exact ⟨(n.need : ℚ), bp.stock + bp.transit - bp.reserve, rfl⟩

theorem joined_deficit_nonneg {inp : Input} {j : JoinedRow} (hj : j ∈ joined inp) :
    0 ≤ j.deficit := by
  obtain ⟨a, b, h⟩ := mem_joined_deficit hj
  rw [h]
  exact le_max_left 0 _

theorem joined_priority_mem {inp : Input} {j : JoinedRow} (hj : j ∈ joined inp) :
    ∃ s ∈ inp.stores, j.priority = s.priority := by
  simp only [joined, List.mem_flatMap, List.mem_map] at hj
  obtain ⟨bp, _, n, _, s, hs, rfl⟩ := hj
  exact ⟨s, (List.mem_filter.mp hs).1, rfl⟩

theorem joined_priority_nonneg {inp : Input}
    (hst : ∀ s ∈ inp.stores, 0 ≤ s.priority) {j : JoinedRow}
    (hj : j ∈ joined inp) : 0 ≤ j.priority := by
  obtain ⟨s, hs, h⟩ := joined_priority_mem hj
  rw [h]; exact hst s hs

theorem joined_deficit_isInt {inp : Input} (hint : IntegralInput inp)
    {j : JoinedRow} (hj : j ∈ joined inp) : IsInt j.deficit := by
  simp only [joined, List.mem_flatMap, List.mem_map] at hj
  obtain ⟨bp, hbp, n, _, s, _, rfl⟩ := hj
  obtain ⟨hs, hr, ht⟩ := hint.1 bp hbp
  exact isInt_max isInt_zero
    (isInt_sub (isInt_intCast n.need) (isInt_sub (isInt_add hs ht) hr))

/-! ### First-pass bounds -/

theorem shipped1_le_deficit (S : ℤ) (W d : ℚ) (pr : ℤ) :
    shipped1 S W d pr ≤ d := min_le_right _ _

theorem shipped1_nonneg {S : ℤ} {W d : ℚ} {pr : ℤ} (hS : 0 ≤ S) (hW : 0 ≤ W)
    (hd : 0 ≤ d) (hpr : 0 ≤ pr) : 0 ≤ shipped1 S W d pr := by
  unfold shipped1
  apply le_min _ hd
  split
  · norm_num
  · have hpr' : (0 : ℚ) ≤ (pr : ℚ) := by exact_mod_cast hpr
    have hS' : (0 : ℚ) ≤ (S : ℚ) := by exact_mod_cast hS
    have hx : (0 : ℚ) ≤ (S : ℚ) * (d * (pr : ℚ)) / W := by positivity
    exact_mod_cast Int.le_floor.mpr (by push_cast; exact hx)

theorem shipped1_isInt {S : ℤ} {W d : ℚ} {pr : ℤ} (hd : IsInt d) :
    IsInt (shipped1 S W d pr) := by
  unfold shipped1
  exact isInt_min (isInt_intCast _) hd

theorem totalWeight_nonneg {inp : Input} {p : Nat}
    (hst : ∀ s ∈ inp.stores, 0 ≤ s.priority) : 0 ≤ totalWeight inp p := by
  apply List.sum_nonneg
  intro x hx
  simp only [List.mem_map] at hx
  obtain ⟨a, ha, rfl⟩ := hx
  have haj : a ∈ joined inp := List.mem_of_mem_filter ha
  have h1 := joined_deficit_nonneg haj
  have h2 : (0 : ℚ) ≤ (a.priority : ℚ) := by
    exact_mod_cast joined_priority_nonneg hst haj
  positivity

theorem sum_shipped1_le {inp : Input} {p : Nat} {S : ℤ} (hS : 0 ≤ S)
    (hst : ∀ s ∈ inp.stores, 0 ≤ s.priority) :
    ((availP inp p).map fun a =>
      shipped1 S (totalWeight inp p) a.deficit a.priority).sum ≤ (S : ℚ) := by
  by_cases h0 : totalWeight inp p = 0
  · have hz : ∀ x ∈ (availP inp p).map fun a =>
        shipped1 S (totalWeight inp p) a.deficit a.priority, x = 0 := by
      intro x hx
      simp only [List.mem_map] at hx
      obtain ⟨a, ha, rfl⟩ := hx
      have hd := joined_deficit_nonneg (List.mem_of_mem_filter ha)
      simp [shipped1, h0, min_eq_left hd]
    rw [List.sum_eq_zero hz]
    exact_mod_cast hS
  · have hWpos : 0 < totalWeight inp p :=
      lt_of_le_of_ne (totalWeight_nonneg hst) (Ne.symm h0)
    have hstep : ((availP inp p).map fun a =>
        shipped1 S (totalWeight inp p) a.deficit a.priority).sum ≤
        ((availP inp p).map fun a =>
          ((S : ℚ) / totalWeight inp p) * (a.deficit * (a.priority : ℚ))).sum := by
      apply List.sum_le_sum
      intro a ha
      calc shipped1 S (totalWeight inp p) a.deficit a.priority
          ≤ (((if totalWeight inp p = 0 then 0
              else Int.floor ((S : ℚ) * (a.deficit * (a.priority : ℚ)) /
                totalWeight inp p)) : ℤ) : ℚ) := min_le_left _ _
        _ ≤ ((S : ℚ) / totalWeight inp p) * (a.deficit * (a.priority : ℚ)) := by
            rw [if_neg h0]
            calc ((Int.floor ((S : ℚ) * (a.deficit * (a.priority : ℚ)) /
                    totalWeight inp p) : ℤ) : ℚ)
                ≤ (S : ℚ) * (a.deficit * (a.priority : ℚ)) / totalWeight inp p :=
                  Int.floor_le _
              _ = ((S : ℚ) / totalWeight inp p) * (a.deficit * (a.priority : ℚ)) := by
                  ring
    rw [List.sum_map_mul_left] at hstep
    calc ((availP inp p).map fun a =>
          shipped1 S (totalWeight inp p) a.deficit a.priority).sum
        ≤ ((S : ℚ) / totalWeight inp p) *
            ((availP inp p).map fun a => a.deficit * (a.priority : ℚ)).sum := hstep
      _ = (S : ℚ) := by
          rw [show ((availP inp p).map fun a => a.deficit * (a.priority : ℚ)).sum =
              totalWeight inp p from rfl]
          field_simp

/-! ### Remainder-rank bounds -/

theorem rankQty_mem (rem : ℚ) :
    ∀ (l : List FPRow) (k : Nat) (x : FPRow × ℚ), x ∈ rankQty rem k l →
      x.1 ∈ l ∧ (x.2 = x.1.shipped ∨ x.2 = x.1.shipped + 1) := by
  intro l
  induction l with
  | nil => intro k x hx; simp [rankQty] at hx
  | cons r rs ih =>
    intro k x hx
    rw [rankQty] at hx
    rcases List.mem_cons.mp hx with h | h
    · subst h
      refine ⟨List.mem_cons_self _ _, ?_⟩
      split
      · right; rfl
      · left; simp
    · obtain ⟨h1, h2⟩ := ih (k+1) x h
      exact ⟨List.mem_cons_of_mem _ h1, h2⟩

theorem rankQty_sum_le (rem : ℚ) :
    ∀ (l : List FPRow) (k : Nat),
      ((rankQty rem k l).map fun x => x.2).sum ≤
        (l.map fun r => r.shipped).sum + max 0 (rem - k + 1) := by
  intro l
  induction l with
  | nil =>
    intro k
    simp only [rankQty, List.map_nil, List.sum_nil, zero_add]
    exact le_max_left 0 _
  | cons r rs ih =>
    intro k
    rw [rankQty]
    simp only [List.map_cons, List.sum_cons]
    have hcast : ((k + 1 : ℕ) : ℚ) = (k : ℚ) + 1 := by push_cast; ring
    by_cases hk : ((k : ℚ) ≤ rem)
    · rw [if_pos hk]
      have h1 := ih (k+1)
      rw [hcast] at h1
      have h2 : max 0 (rem - ((k : ℚ) + 1) + 1) + 1 ≤ max 0 (rem - (k : ℚ) + 1) := by
        rw [max_eq_right (by linarith : (0:ℚ) ≤ rem - ((k : ℚ) + 1) + 1),
          max_eq_right (by linarith : (0:ℚ) ≤ rem - (k : ℚ) + 1)]
        linarith
      linarith
    · rw [if_neg hk]
      have h1 := ih (k+1)
      rw [hcast] at h1
      have h2 : max 0 (rem - ((k : ℚ) + 1) + 1) ≤ max 0 (rem - (k : ℚ) + 1) :=
        max_le_max le_rfl (by linarith)
      linarith

/-! ### Sums over shipment-row lists -/

theorem productTotal_append (l1 l2 : List ShipmentRow) (p : Nat) :
    productTotal (l1 ++ l2) p = productTotal l1 p + productTotal l2 p := by
  simp [productTotal, List.filter_append]

theorem productTotal_eq_zero {l : List ShipmentRow} {p : Nat}
    (h : ∀ r ∈ l, r.product_id ≠ p) : productTotal l p = 0 := by
  have hnil : l.filter (fun r => r.product_id == p) = [] := by
    rw [List.filter_eq_nil_iff]
    intro r hr
    simp [h r hr]
  simp [productTotal, hnil]

theorem productTotal_nonneg {l : List ShipmentRow} {p : Nat}
    (h : ∀ r ∈ l, 0 ≤ r.shipment_qty) : 0 ≤ productTotal l p := by
  apply List.sum_nonneg
  intro x hx
  simp only [List.mem_map] at hx
  obtain ⟨r, hr, rfl⟩ := hx
  exact h r (List.mem_of_mem_filter hr)

theorem productTotal_flatMap (ps : List Nat) (f : Nat → List ShipmentRow) (p : Nat)
    (hps : ps.Nodup) (hf : ∀ q, ∀ r ∈ f q, r.product_id = q) :
    productTotal (ps.flatMap f) p = if p ∈ ps then productTotal (f p) p else 0 := by
  induction ps with
  | nil => simp [productTotal]
  | cons a t ih =>
    rw [List.flatMap_cons, productTotal_append]
    rcases List.nodup_cons.mp hps with ⟨ha, ht⟩
    by_cases hap : p = a
    · subst hap
      rw [if_pos (List.mem_cons_self _ _), ih ht, if_neg ha, add_zero]
    · have h0 : productTotal (f a) p = 0 :=
        productTotal_eq_zero fun r hr => by rw [hf a r hr]; exact fun hh => hap hh.symm
      rw [h0, zero_add, ih ht]
      simp [List.mem_cons, hap]

theorem sum_map_filter_eq_sum_ite (l : List ShipmentRow) (pb : ShipmentRow → Bool)
    (f : ShipmentRow → ℤ) :
    ((l.filter pb).map f).sum = (l.map fun r => if pb r then f r else 0).sum := by
  induction l with
  | nil => simp
  | cons r t ih =>
    rw [List.filter_cons]
    by_cases hp : pb r
    · simp [hp, ih]
    · simp [hp, ih]

theorem sum_map_partition (l : List ShipmentRow) (q : ShipmentRow → Bool)
    (g : ShipmentRow → ℤ) :
    (l.map g).sum =
      ((l.filter fun r => ! q r).map g).sum + ((l.filter q).map g).sum := by
  induction l with
  | nil => simp
  | cons r t ih =>
    cases hq : q r <;> simp [List.filter_cons, hq, ih] <;> ring

theorem productTotal_eq_sum_ite (l : List ShipmentRow) (p : Nat) :
    productTotal l p =
      (l.map fun r => if r.product_id == p then r.shipment_qty else 0).sum :=
  sum_map_filter_eq_sum_ite l _ _

theorem productTotal_filter_partition (l : List ShipmentRow)
    (q : ShipmentRow → Bool) (p : Nat) :
    productTotal l p =
      productTotal (l.filter fun r => ! q r) p + productTotal (l.filter q) p := by
  rw [productTotal_eq_sum_ite, productTotal_eq_sum_ite, productTotal_eq_sum_ite]
  exact sum_map_partition l q _

theorem totalShipment_eq_zero {l : List ShipmentRow} {b : Nat}
    (h : ∀ r ∈ l, r.branch_id ≠ b) : totalShipment l b = 0 := by
  have hnil : l.filter (fun r => r.branch_id == b) = [] := by
    rw [List.filter_eq_nil_iff]
    intro r hr
    simp [h r hr]
  simp [totalShipment, hnil]

theorem totalShipment_eq_sum_ite (l : List ShipmentRow) (b : Nat) :
    totalShipment l b =
      (l.map fun r => if r.branch_id == b then r.shipment_qty else 0).sum :=
  sum_map_filter_eq_sum_ite l _ _

theorem totalShipment_filter_branch (l : List ShipmentRow) (q : Nat → Bool) (b : Nat) :
    totalShipment (l.filter fun r => ! q r.branch_id) b =
      if q b then 0 else totalShipment l b := by
  rw [totalShipment_eq_sum_ite, sum_map_filter_eq_sum_ite, totalShipment_eq_sum_ite]
  by_cases hq : q b
  · rw [if_pos hq]
    apply List.sum_eq_zero
    intro x hx
    simp only [List.mem_map] at hx
    obtain ⟨r, hr, rfl⟩ := hx
    by_cases hb : r.branch_id = b
    · simp [hb, hq]
    · simp [hb]
  · rw [if_neg hq]
    congr 1
    apply List.map_congr_left
    intro r hr
    by_cases hb : r.branch_id = b
    · simp [hb, hq]
    · simp [hb]

/-! ### From ranked quantities to inserted rows -/

theorem distQty_sum_le {l : List (FPRow × ℚ)}
    (h : ∀ x ∈ l, IsInt x.2 ∧ 0 ≤ x.2) :
    ((((l.filter fun rq => 0 < rq.2).map fun rq => pgNumericToInt rq.2).sum : ℤ) : ℚ)
      ≤ (l.map fun x => x.2).sum := by
  induction l with
  | nil => simp
  | cons a t ih =>
    have ha := h a (List.mem_cons_self a t)
    have ht := fun x hx => h x (List.mem_cons_of_mem a hx)
    have iht := ih ht
    rw [List.filter_cons]
    by_cases h0 : (0 : ℚ) < a.2
    · rw [if_pos (by simpa using h0)]
      simp only [List.map_cons, List.sum_cons, Int.cast_add]
      rw [pgNumericToInt_isInt ha.1]
      exact add_le_add_left iht a.2
    · rw [if_neg (by simpa using h0)]
      simp only [List.map_cons, List.sum_cons]
      linarith [ha.2]

theorem allocQty_filter_eq_take (l : ℤ) :
    ∀ (as : List JoinedRow) (k : Nat),
      ((allocQty l k as).filter fun aq => 0 < aq.2) =
        (as.take (l - k + 1).toNat).map fun a => (a, (1 : ℤ)) := by
  intro as
  induction as with
  | nil => intro k; simp [allocQty]
  | cons a t ih =>
    intro k
    rw [allocQty]
    by_cases hk : ((k : ℤ) ≤ l)
    · have h1 : (l - k + 1).toNat = (l - (k+1) + 1).toNat + 1 := by
        omega
      rw [if_pos hk, List.filter_cons, if_pos (by norm_num), h1]
      rw [List.take_succ_cons, List.map_cons]
      rw [ih (k+1)]
      rfl
    · have h1 : (l - k + 1).toNat = 0 := by omega
      have h2 : (l - ((k : ℤ) + 1) + 1).toNat = 0 := by omega
      rw [if_neg hk, List.filter_cons, if_neg (by norm_num), h1, List.take_zero,
        List.map_nil]
      have := ih (k+1)
      rw [show ((l - (k+1 : ℕ) + 1).toNat) = 0 by push_cast; omega] at this
      simpa using this

/-! ### Facts about the per-product stages -/

theorem rcTotalStock_nonneg {inp : Input} {p : Nat} {S : ℤ}
    (hrc : ∀ r ∈ inp.rc_products, 0 ≤ r.stock)
    (hS : rcTotalStock inp p = some S) : 0 ≤ S := by
  unfold rcTotalStock at hS
  split at hS
  · exact absurd hS (by simp)
  · have hsum : 0 ≤ ((rcRows inp p).map fun r => r.stock).sum := by
      apply List.sum_nonneg
      intro x hx
      simp only [List.mem_map] at hx
      obtain ⟨r, hr, rfl⟩ := hx
      exact hrc r (List.mem_of_mem_filter hr)
    have := pgNumericToInt_nonneg hsum
    exact (Option.some.inj hS) ▸ this

theorem rcTotalStock_eq_central {inp : Input} {p : Nat} {S : ℤ}
    (hrcint : ∀ r ∈ inp.rc_products, IsInt r.stock)
    (hS : rcTotalStock inp p = some S) :
    (S : ℚ) = totalCentralStock inp p := by
  unfold rcTotalStock at hS
  split at hS
  · exact absurd hS (by simp)
  · have hii : IsInt ((rcRows inp p).map fun r => r.stock).sum := by
      apply isInt_listSum
      intro q hq
      simp only [List.mem_map] at hq
      obtain ⟨r, hr, rfl⟩ := hq
      exact hrcint r (List.mem_of_mem_filter hr)
    have h2 := pgNumericToInt_isInt hii
    have h3 : S = pgNumericToInt ((rcRows inp p).map fun r => r.stock).sum := by
      simp_all
    rw [h3, h2]
    rfl

theorem totalCentralStock_nonneg {inp : Input} {p : Nat}
    (hrc : ∀ r ∈ inp.rc_products, 0 ≤ r.stock) :
    0 ≤ totalCentralStock inp p := by
  apply List.sum_nonneg
  intro x hx
  simp only [List.mem_map] at hx
  obtain ⟨r, hr, rfl⟩ := hx
  exact hrc r (List.mem_of_mem_filter hr)

theorem firstPassP_none {inp : Input} {p : Nat}
    (hS : rcTotalStock inp p = none) : firstPassP inp p = [] := by
  unfold firstPassP
  rw [hS]

theorem distRowsP_none {inp : Input} {p : Nat}
    (hS : rcTotalStock inp p = none) : distRowsP inp p = [] := by
  unfold distRowsP
  rw [hS]

theorem firstPassP_some {inp : Input} {p : Nat} {S : ℤ}
    (hS : rcTotalStock inp p = some S) :
    firstPassP inp p = (availP inp p).map fun a =>
      { product_id := p
        branch_id  := a.branch_id
        deficit    := a.deficit
        priority   := a.priority
        shipped    := shipped1 S (totalWeight inp p) a.deficit a.priority } := by
  unfold firstPassP
  rw [hS]

theorem distRowsP_some {inp : Input} {p : Nat} {S : ℤ}
    (hS : rcTotalStock inp p = some S) :
    distRowsP inp p =
      ((rankQty (remainingP inp p S) 1
          (sortDesc (fun r => r.priority) (firstPassP inp p))).filter fun rq =>
        0 < rq.2).map fun rq =>
        { branch_id := rq.1.branch_id, product_id := p
          shipment_qty := pgNumericToInt rq.2 } := by
  unfold distRowsP
  rw [hS]

theorem mem_firstPassP {inp : Input} {p : Nat} {r : FPRow}
    (hr : r ∈ firstPassP inp p) :
    ∃ S, rcTotalStock inp p = some S ∧ ∃ a ∈ availP inp p,
      r = { product_id := p, branch_id := a.branch_id, deficit := a.deficit,
            priority := a.priority,
            shipped := shipped1 S (totalWeight inp p) a.deficit a.priority } := by
  cases hS : rcTotalStock inp p with
  | none => rw [firstPassP_none hS] at hr; simp at hr
  | some S =>
    rw [firstPassP_some hS] at hr
    simp only [List.mem_map] at hr
    obtain ⟨a, ha, rfl⟩ := hr
    exact ⟨S, rfl, a, ha, rfl⟩

theorem firstPassP_shipped_nonneg {inp : Input} {p : Nat}
    (hrc : ∀ r ∈ inp.rc_products, 0 ≤ r.stock)
    (hst : ∀ s ∈ inp.stores, 0 ≤ s.priority) :
    ∀ r ∈ firstPassP inp p, 0 ≤ r.shipped := by
  intro r hr
  obtain ⟨S, hS, a, ha, rfl⟩ := mem_firstPassP hr
  have haj := List.mem_of_mem_filter ha
  exact shipped1_nonneg (rcTotalStock_nonneg hrc hS) (totalWeight_nonneg hst)
    (joined_deficit_nonneg haj) (joined_priority_nonneg hst haj)

theorem firstPassP_shipped_isInt {inp : Input} {p : Nat}
    (hint : IntegralInput inp) :
    ∀ r ∈ firstPassP inp p, IsInt r.shipped := by
  intro r hr
  obtain ⟨S, hS, a, ha, rfl⟩ := mem_firstPassP hr
  exact shipped1_isInt (joined_deficit_isInt hint (List.mem_of_mem_filter ha))

theorem firstPassP_map_shipped {inp : Input} {p : Nat} {S : ℤ}
    (hS : rcTotalStock inp p = some S) :
    (firstPassP inp p).map (fun r => r.shipped) =
      (availP inp p).map fun a =>
        shipped1 S (totalWeight inp p) a.deficit a.priority := by
  rw [firstPassP_some hS, List.map_map]
  rfl

theorem productTotal_of_all {l : List ShipmentRow} {p : Nat}
    (h : ∀ r ∈ l, r.product_id = p) :
    productTotal l p = (l.map fun r => r.shipment_qty).sum := by
  unfold productTotal
  rw [List.filter_eq_self.mpr fun r hr => by simp [h r hr]]

theorem distRowsP_product {inp : Input} {p : Nat} :
    ∀ r ∈ distRowsP inp p, r.product_id = p := by
  intro r hr
  cases hS : rcTotalStock inp p with
  | none => rw [distRowsP_none hS] at hr; simp at hr
  | some S =>
    rw [distRowsP_some hS] at hr
    simp only [List.mem_map] at hr
    obtain ⟨rq, _, rfl⟩ := hr
    rfl

theorem mem_distRowsP {inp : Input} {p : Nat} {r : ShipmentRow}
    (hr : r ∈ distRowsP inp p) :
    ∃ S, rcTotalStock inp p = some S ∧
      ∃ rq ∈ rankQty (remainingP inp p S) 1
        (sortDesc (fun x => x.priority) (firstPassP inp p)),
        (0 : ℚ) < rq.2 ∧
        r = { branch_id := rq.1.branch_id, product_id := p
              shipment_qty := pgNumericToInt rq.2 } := by
  cases hS : rcTotalStock inp p with
  | none => rw [distRowsP_none hS] at hr; simp at hr
  | some S =>
    rw [distRowsP_some hS] at hr
    simp only [List.mem_map, List.mem_filter] at hr
    obtain ⟨rq, ⟨hrq, hpos⟩, rfl⟩ := hr
    exact ⟨S, rfl, rq, hrq, by simpa using hpos, rfl⟩

theorem rankQty_snd_facts {inp : Input} {p : Nat} {S : ℤ}
    (hrc : ∀ r ∈ inp.rc_products, 0 ≤ r.stock)
    (hst : ∀ s ∈ inp.stores, 0 ≤ s.priority) (hint : IntegralInput inp)
    {x : FPRow × ℚ}
    (hx : x ∈ rankQty (remainingP inp p S) 1
      (sortDesc (fun r => r.priority) (firstPassP inp p))) :
    IsInt x.2 ∧ 0 ≤ x.2 := by
  obtain ⟨hmem, hval⟩ := rankQty_mem _ _ _ _ hx
  have hfp : x.1 ∈ firstPassP inp p :=
    ((perm_sortDesc (fun r => r.priority) (firstPassP inp p)).mem_iff).mp hmem
  have hnn := firstPassP_shipped_nonneg hrc hst x.1 hfp
  have hii := firstPassP_shipped_isInt hint x.1 hfp
  rcases hval with h | h <;> rw [h]
  · exact ⟨hii, hnn⟩
  · exact ⟨isInt_add hii isInt_one, by linarith⟩

theorem distRowsP_sum_le {inp : Input} {p : Nat} {S : ℤ}
    (hrc : ∀ r ∈ inp.rc_products, 0 ≤ r.stock)
    (hst : ∀ s ∈ inp.stores, 0 ≤ s.priority) (hint : IntegralInput inp)
    (hS : rcTotalStock inp p = some S) :
    ((productTotal (distRowsP inp p) p : ℤ) : ℚ) ≤ (S : ℚ) := by
  rw [productTotal_of_all distRowsP_product, distRowsP_some hS, List.map_map]
  have h1 : ((((rankQty (remainingP inp p S) 1
      (sortDesc (fun r => r.priority) (firstPassP inp p))).filter fun rq =>
        0 < rq.2).map fun rq => pgNumericToInt rq.2).sum : ℚ) ≤
      ((rankQty (remainingP inp p S) 1
        (sortDesc (fun r => r.priority) (firstPassP inp p))).map fun x => x.2).sum :=
    distQty_sum_le fun x hx => rankQty_snd_facts hrc hst hint hx
  have h2 := rankQty_sum_le (remainingP inp p S)
    (sortDesc (fun r => r.priority) (firstPassP inp p)) 1
  have hperm : ((sortDesc (fun r => r.priority) (firstPassP inp p)).map
      fun r => r.shipped).sum = ((firstPassP inp p).map fun r => r.shipped).sum :=
    ((perm_sortDesc (fun r => r.priority) (firstPassP inp p)).map _).sum_eq
  have hT : ((firstPassP inp p).map fun r => r.shipped).sum ≤ (S : ℚ) := by
    rw [firstPassP_map_shipped hS]
    exact sum_shipped1_le (rcTotalStock_nonneg hrc hS) hst
  have hrem : remainingP inp p S =
      (S : ℚ) - ((firstPassP inp p).map fun r => r.shipped).sum := rfl
  have h3 : ((sortDesc (fun r => r.priority) (firstPassP inp p)).map
      fun r => r.shipped).sum + max 0 (remainingP inp p S - 1 + 1) ≤ (S : ℚ) := by
    rw [hperm, hrem]
    rw [max_eq_right (by linarith)]
    linarith
  calc ((((rankQty (remainingP inp p S) 1
        (sortDesc (fun r => r.priority) (firstPassP inp p))).filter fun rq =>
          0 < rq.2).map fun rq => pgNumericToInt rq.2).sum : ℚ)
      ≤ _ := h1
    _ ≤ _ := h2
    _ ≤ (S : ℚ) := h3

/-! ### The shipments table after the first statement -/

theorem shipments1_productTotal (inp : Input) (p : Nat) :
    productTotal (shipments1 inp) p =
      if p ∈ productIds inp then productTotal (distRowsP inp p) p else 0 :=
  productTotal_flatMap _ _ _ (List.nodup_dedup _) fun _ r hr => distRowsP_product r hr

theorem mem_shipments1 {inp : Input} {r : ShipmentRow} (hr : r ∈ shipments1 inp) :
    ∃ p ∈ productIds inp, r ∈ distRowsP inp p := by
  unfold shipments1 at hr
  simpa using List.mem_flatMap.mp hr

theorem shipments1_qty_nonneg {inp : Input} :
    ∀ r ∈ shipments1 inp, 0 ≤ r.shipment_qty := by
  intro r hr
  obtain ⟨p, _, hp⟩ := mem_shipments1 hr
  obtain ⟨S, _, rq, _, hpos, rfl⟩ := mem_distRowsP hp
  exact pgNumericToInt_nonneg (le_of_lt hpos)

theorem rankQty_snd_isInt {inp : Input} {p : Nat} {S : ℤ}
    (hint : IntegralInput inp) {x : FPRow × ℚ}
    (hx : x ∈ rankQty (remainingP inp p S) 1
      (sortDesc (fun r => r.priority) (firstPassP inp p))) : IsInt x.2 := by
  obtain ⟨hmem, hval⟩ := rankQty_mem _ _ _ _ hx
  have hfp : x.1 ∈ firstPassP inp p :=
    ((perm_sortDesc (fun r => r.priority) (firstPassP inp p)).mem_iff).mp hmem
  have hii := firstPassP_shipped_isInt hint x.1 hfp
  rcases hval with h | h <;> rw [h]
  · exact hii
  · exact isInt_add hii isInt_one

theorem shipments1_qty_pos {inp : Input} (hint : IntegralInput inp) :
    ∀ r ∈ shipments1 inp, 0 < r.shipment_qty := by
  intro r hr
  obtain ⟨p, _, hp⟩ := mem_shipments1 hr
  obtain ⟨S, hS, rq, hrq, hpos, rfl⟩ := mem_distRowsP hp
  exact pgNumericToInt_pos_of_isInt (rankQty_snd_isInt hint hrq) hpos

/-! ### Pruning accounting -/

theorem leftoverOf_eq (inp : Input) (p : Nat) :
    leftoverOf inp p = productTotal (zeroedRows inp) p := rfl

theorem shipments1_split (inp : Input) (p : Nat) :
    productTotal (shipments1 inp) p =
      productTotal (shipments2 inp) p + leftoverOf inp p :=
  productTotal_filter_partition (shipments1 inp)
    (fun r => prunedB inp (shipments1 inp) r.branch_id) p

theorem leftoverOf_nonneg (inp : Input) (p : Nat) : 0 ≤ leftoverOf inp p := by
  rw [leftoverOf_eq]
  exact productTotal_nonneg fun r hr =>
    shipments1_qty_nonneg r (List.mem_of_mem_filter hr)

theorem shipments2_subset {inp : Input} {r : ShipmentRow}
    (hr : r ∈ shipments2 inp) : r ∈ shipments1 inp :=
  List.mem_of_mem_filter hr

theorem shipments2_branch_empty {inp : Input} {b : Nat}
    (hb : prunedB inp (shipments1 inp) b = true) :
    (shipments2 inp).filter (fun r => r.branch_id == b) = [] := by
  rw [List.filter_eq_nil_iff]
  intro r hr
  obtain ⟨hr1, hr2⟩ := List.mem_filter.mp hr
  intro hbb
  have : r.branch_id = b := by simpa using hbb
  rw [this] at hr2
  rw [hb] at hr2
  simp at hr2

theorem totalShipment_shipments2 (inp : Input) (b : Nat) :
    totalShipment (shipments2 inp) b =
      if prunedB inp (shipments1 inp) b then 0
      else totalShipment (shipments1 inp) b :=
  totalShipment_filter_branch (shipments1 inp)
    (fun x => prunedB inp (shipments1 inp) x) b

/-! ### Leftover reallocation -/

theorem allocRowsP_eq_take (inp : Input) (p : Nat) :
    allocRowsP inp p =
      ((sortDesc (fun j => j.priority)
          ((avail2 inp).filter fun j => j.product_id == p)).take
        (leftoverOf inp p).toNat).map fun a =>
        { branch_id := a.branch_id, product_id := p, shipment_qty := (1 : ℤ) } := by
  unfold allocRowsP
  rw [allocQty_filter_eq_take, List.map_map]
  rw [show (leftoverOf inp p - (1 : ℕ) + 1).toNat = (leftoverOf inp p).toNat by omega]
  rfl

theorem allocRowsP_product {inp : Input} {p : Nat} :
    ∀ r ∈ allocRowsP inp p, r.product_id = p := by
  intro r hr
  rw [allocRowsP_eq_take] at hr
  simp only [List.mem_map] at hr
  obtain ⟨a, _, rfl⟩ := hr
  rfl

theorem allocRowsP_qty_one {inp : Input} {p : Nat} :
    ∀ r ∈ allocRowsP inp p, r.shipment_qty = 1 := by
  intro r hr
  rw [allocRowsP_eq_take] at hr
  simp only [List.mem_map] at hr
  obtain ⟨a, _, rfl⟩ := hr
  rfl

theorem sum_map_one {α : Type} (l : List α) :
    (l.map fun _ => (1 : ℤ)).sum = l.length := by
  induction l with
  | nil => simp
  | cons a t ih => simp [ih]; ring

theorem allocRowsP_total (inp : Input) (p : Nat) :
    productTotal (allocRowsP inp p) p =
      ((min (leftoverOf inp p).toNat
        ((avail2 inp).filter fun j => j.product_id == p).length : ℕ) : ℤ) := by
  rw [productTotal_of_all allocRowsP_product, allocRowsP_eq_take, List.map_map]
  rw [show ((fun r : ShipmentRow => r.shipment_qty) ∘ fun a : JoinedRow =>
      ({ branch_id := a.branch_id, product_id := p, shipment_qty := (1 : ℤ) } :
        ShipmentRow)) = fun _ => (1 : ℤ) from rfl]
  rw [sum_map_one, List.length_take]
  rw [((perm_sortDesc (fun j => j.priority)
    ((avail2 inp).filter fun j => j.product_id == p)).length_eq)]

theorem adjustAdds_productTotal (inp : Input) (p : Nat) :
    productTotal (adjustAdds inp) p =
      if p ∈ zeroProducts inp then productTotal (allocRowsP inp p) p else 0 :=
  productTotal_flatMap _ _ _ (List.nodup_dedup _) fun _ r hr => allocRowsP_product r hr

theorem adjustAdds_le_leftover (inp : Input) (p : Nat) :
    productTotal (adjustAdds inp) p ≤ max 0 (leftoverOf inp p) := by
  rw [adjustAdds_productTotal]
  split
  · rw [allocRowsP_total]
    have h1 : (min (leftoverOf inp p).toNat
        ((avail2 inp).filter fun j => j.product_id == p).length : ℕ) ≤
        (leftoverOf inp p).toNat := min_le_left _ _
    have h2 : ((leftoverOf inp p).toNat : ℤ) ≤ max 0 (leftoverOf inp p) := by
      rcases le_or_lt 0 (leftoverOf inp p) with h | h
      · rw [Int.toNat_of_nonneg h]; exact le_max_right _ _
      · rw [Int.toNat_of_nonpos (le_of_lt h)]; exact le_max_left _ _
    calc ((min (leftoverOf inp p).toNat
          ((avail2 inp).filter fun j => j.product_id == p).length : ℕ) : ℤ)
        ≤ ((leftoverOf inp p).toNat : ℤ) := by exact_mod_cast h1
      _ ≤ max 0 (leftoverOf inp p) := h2
  · exact le_max_left _ _

/-! ### The final shipments table -/

theorem final_split (inp : Input) (p : Nat) :
    productTotal (finalShipments inp) p =
      productTotal (shipments2 inp) p + productTotal (adjustAdds inp) p :=
  productTotal_append _ _ _

/-! ### Further support lemmas -/

theorem shipped1_zero_deficit (S : ℤ) (W : ℚ) (pr : ℤ) :
    shipped1 S W 0 pr = 0 := by
  unfold shipped1
  split
  · simp
  · norm_num

theorem shipped1_zero_weight {S : ℤ} {d : ℚ} {pr : ℤ} (hd : 0 ≤ d) :
    shipped1 S 0 d pr = 0 := by
  unfold shipped1
  rw [if_pos rfl]
  simpa using hd

theorem mem_availP_product {inp : Input} {p : Nat} {a : JoinedRow}
    (ha : a ∈ availP inp p) : a.product_id = p := by
  have := (List.mem_filter.mp ha).2
  simpa using this

theorem mem_availP_joined {inp : Input} {p : Nat} {a : JoinedRow}
    (ha : a ∈ availP inp p) : a ∈ joined inp :=
  List.mem_of_mem_filter ha

theorem mem_avail2_joined {inp : Input} {a : JoinedRow}
    (ha : a ∈ avail2 inp) : a ∈ joined inp :=
  List.mem_of_mem_filter ha

theorem mem_avail2_pos {inp : Input} {a : JoinedRow}
    (ha : a ∈ avail2 inp) : 0 < a.deficit := by
  have := (List.mem_filter.mp ha).2
  simpa using this

/-! ### Claim theorems: sum caps and pruning -/

/-- C1 (amended): for inputs with non-negative stock, need and priority
values whose `NUMERIC` columns hold whole numbers, the sum of final
`shipment_qty` over all rows of a product never exceeds that product's
total central stock. (Without the integrality amendment the claim fails,
see the counterexample.) -/
theorem c1_product_cap (inp : Input) (hnn : NonnegInput inp)
    (hint : IntegralInput inp) (p : Nat) :
    ((productTotal (finalShipments inp) p : ℤ) : ℚ) ≤ totalCentralStock inp p := by
  obtain ⟨hbs, hrc, hnd, hst⟩ := hnn
  have hs1 : ((productTotal (shipments1 inp) p : ℤ) : ℚ) ≤ totalCentralStock inp p := by
    rw [shipments1_productTotal]
    split
    · cases hS : rcTotalStock inp p with
      | none =>
        rw [distRowsP_none hS]
        simpa [productTotal] using totalCentralStock_nonneg hrc
      | some S =>
        calc ((productTotal (distRowsP inp p) p : ℤ) : ℚ)
            ≤ (S : ℚ) := distRowsP_sum_le hrc hst hint hS
          _ = totalCentralStock inp p := rcTotalStock_eq_central hint.2 hS
    · simpa using totalCentralStock_nonneg hrc
  have hfin : productTotal (finalShipments inp) p ≤
      productTotal (shipments1 inp) p := by
    rw [final_split, shipments1_split inp p]
    have h1 := adjustAdds_le_leftover inp p
    have h2 : max 0 (leftoverOf inp p) = leftoverOf inp p :=
      max_eq_right (leftoverOf_nonneg inp p)
    linarith
  calc ((productTotal (finalShipments inp) p : ℤ) : ℚ)
      ≤ ((productTotal (shipments1 inp) p : ℤ) : ℚ) := by exact_mod_cast hfin
    _ ≤ totalCentralStock inp p := hs1

/-- C2 (amended): a (branch, product) pair whose deficit is zero can
appear in the output, but only through the remainder bonus: every such
output row has `shipment_qty` at most 1, and the leftover-reallocation
insert never produces a row for it. (The claim as stated — such a pair
never receives a shipment — fails, see the counterexample.) -/
theorem c2_zero_deficit_bound (inp : Input) (b p : Nat)
    (hdef : ∀ j ∈ joined inp, j.branch_id = b → j.product_id = p → j.deficit = 0) :
    ∀ r ∈ finalShipments inp, r.branch_id = b → r.product_id = p →
      r.shipment_qty ≤ 1 := by
  intro r hr hb hp
  rcases List.mem_append.mp hr with hr2 | hradd
  · have hr1 := shipments2_subset hr2
    obtain ⟨p', hp', hpd⟩ := mem_shipments1 hr1
    have hpp : p' = p := by
      have := distRowsP_product r hpd
      rw [← hp, this]
    subst hpp
    obtain ⟨S, hS, rq, hrq, hpos, hre⟩ := mem_distRowsP hpd
    obtain ⟨hmem, hval⟩ := rankQty_mem _ _ _ _ hrq
    have hfp : rq.1 ∈ firstPassP inp p' :=
      ((perm_sortDesc (fun x => x.priority) (firstPassP inp p')).mem_iff).mp hmem
    obtain ⟨S', hS', a, ha, hae⟩ := mem_firstPassP hfp
    have hbb : a.branch_id = b := by
      have h1 : r.branch_id = rq.1.branch_id := by rw [hre]
      have h2 : rq.1.branch_id = a.branch_id := by rw [hae]
      rw [h1, h2] at hb
      exact hb
    have hd0 : a.deficit = 0 :=
      hdef a (mem_availP_joined ha) hbb (mem_availP_product ha)
    have hsh : rq.1.shipped = 0 := by
      rw [hae]
      simp only
      rw [hd0, shipped1_zero_deficit]
    have hq1 : rq.2 ≤ 1 := by
      rcases hval with h | h <;> rw [h, hsh] <;> norm_num
    have hqty : r.shipment_qty = pgNumericToInt rq.2 := by rw [hre]
    rw [hqty]
    calc pgNumericToInt rq.2 ≤ pgNumericToInt 1 := by
          unfold pgNumericToInt
          rw [if_pos (le_of_lt hpos), if_pos (by norm_num)]
          exact Int.floor_le_floor (by linarith)
      _ = 1 := by
          rw [show ((1 : ℚ)) = ((1 : ℤ) : ℚ) by norm_num, pgNumericToInt_intCast]
  · exfalso
    unfold adjustAdds at hradd
    obtain ⟨p', hp', hpa⟩ := List.mem_flatMap.mp hradd
    have hpp : p' = p := by
      have := allocRowsP_product r hpa
      rw [← hp, this]
    subst hpp
    rw [allocRowsP_eq_take] at hpa
    simp only [List.mem_map] at hpa
    obtain ⟨a, hat, hre⟩ := hpa
    have ha2 : a ∈ (avail2 inp).filter fun j => j.product_id == p' := by
      have hsub := List.take_subset (leftoverOf inp p').toNat
        (sortDesc (fun j => j.priority) ((avail2 inp).filter fun j => j.product_id == p'))
      exact ((perm_sortDesc (fun j => j.priority) _).mem_iff).mp (hsub hat)
    have haj := mem_avail2_joined (List.mem_of_mem_filter ha2)
    have hbb : a.branch_id = b := by rw [← hre] at hb; exact hb
    have hap : a.product_id = p' := by
      have := (List.mem_filter.mp ha2).2
      simpa using this
    have hd0 : a.deficit = 0 := hdef a haj hbb hap
    have := mem_avail2_pos (List.mem_of_mem_filter ha2)
    rw [hd0] at this
    exact lt_irrefl 0 this

/-- C3 (confirmed): a branch whose total shipment after the distribution
statement is below its `min_shipment` loses all its rows; removed
quantities show up, product by product, in the leftover pool; and after
the delete every branch has total 0 or at least its threshold. -/
theorem c3_threshold_pruning (inp : Input) (s : StoreRow) (hs : s ∈ inp.stores)
    (hlt : totalShipment (shipments1 inp) s.branch_id < s.min_shipment) :
    (shipments2 inp).filter (fun r => r.branch_id == s.branch_id) = [] ∧
    (∀ p, productTotal (shipments1 inp) p =
      productTotal (shipments2 inp) p + leftoverOf inp p) ∧
    (∀ t ∈ inp.stores, totalShipment (shipments2 inp) t.branch_id = 0 ∨
      t.min_shipment ≤ totalShipment (shipments2 inp) t.branch_id) := by
  refine ⟨?_, fun p => shipments1_split inp p, ?_⟩
  · cases hany : (shipments1 inp).any fun r => r.branch_id == s.branch_id with
    | false =>
      rw [List.filter_eq_nil_iff]
      intro r hr hbb
      have hr1 := shipments2_subset hr
      have := List.any_eq_false.mp hany r hr1
      exact this hbb
    | true =>
      apply shipments2_branch_empty
      unfold prunedB
      rw [hany]
      simp only [Bool.true_and, List.any_eq_true]
      exact ⟨s, hs, by simp [hlt]⟩
  · intro t ht
    by_cases hpr : prunedB inp (shipments1 inp) t.branch_id
    · left
      rw [totalShipment_shipments2, if_pos hpr]
    · rw [totalShipment_shipments2, if_neg hpr]
      have hprf : prunedB inp (shipments1 inp) t.branch_id = false :=
        Bool.not_eq_true _ ▸ (by simpa using hpr)
      unfold prunedB at hprf
      rcases Bool.and_eq_false_iff.mp hprf with hA | hB
      · left
        apply totalShipment_eq_zero
        intro r hr hbb
        have := List.any_eq_false.mp hA r hr
        exact this (by simp [hbb])
      · right
        have hnt := List.any_eq_false.mp hB t ht
        have h3 : (t.branch_id == t.branch_id &&
            decide (totalShipment (shipments1 inp) t.branch_id < t.min_shipment)) =
            false := Bool.eq_false_iff.mpr hnt
        rcases Bool.and_eq_false_iff.mp h3 with h1 | h2
        · simp at h1
        · have := of_decide_eq_false h2
          omega

/-- C5 (amended): with non-negative quantities and positive priorities,
and integer central-stock values, every first-pass row ships at most its
deficit and the per-product sum of first-pass shipments never exceeds the
product's total central stock. (Without the integrality amendment the sum
cap fails, see the counterexample.) -/
theorem c5_first_pass_bounds (inp : Input)
    (_hbs : ∀ r ∈ inp.branch_products, 0 ≤ r.stock ∧ 0 ≤ r.reserve ∧ 0 ≤ r.transit)
    (hrc : ∀ r ∈ inp.rc_products, 0 ≤ r.stock)
    (_hnd : ∀ n ∈ inp.needs, 0 ≤ n.need)
    (hpri : ∀ s ∈ inp.stores, 0 < s.priority)
    (hrcint : ∀ r ∈ inp.rc_products, IsInt r.stock) (p : Nat) :
    (∀ r ∈ firstPassP inp p, r.shipped ≤ r.deficit) ∧
    ((firstPassP inp p).map fun r => r.shipped).sum ≤ totalCentralStock inp p := by
  have hst : ∀ s ∈ inp.stores, 0 ≤ s.priority := fun s hs => le_of_lt (hpri s hs)
  constructor
  · intro r hr
    obtain ⟨S, hS, a, ha, rfl⟩ := mem_firstPassP hr
    exact shipped1_le_deficit _ _ _ _
  · cases hS : rcTotalStock inp p with
    | none =>
      rw [firstPassP_none hS]
      simpa using totalCentralStock_nonneg hrc
    | some S =>
      rw [firstPassP_map_shipped hS]
      calc ((availP inp p).map fun a =>
            shipped1 S (totalWeight inp p) a.deficit a.priority).sum
          ≤ (S : ℚ) := sum_shipped1_le (rcTotalStock_nonneg hrc hS) hst
        _ = totalCentralStock inp p := rcTotalStock_eq_central hrcint hS

/-- C6 (amended): a product whose total weight is zero yields a zero
proportional share for every branch — the `NULLIF`/`COALESCE` guard turns
the division by zero into zero, never a fault. (The claim's further
statement that no rows are produced for such a product fails: the
remainder bonus can still materialise rows, see the counterexample.) -/
theorem c6_zero_weight_share (inp : Input) (p : Nat)
    (hW : totalWeight inp p = 0) :
    ∀ r ∈ firstPassP inp p, r.shipped = 0 := by
  intro r hr
  obtain ⟨S, hS, a, ha, rfl⟩ := mem_firstPassP hr
  simp only
  rw [hW]
  exact shipped1_zero_weight (joined_deficit_nonneg (mem_availP_joined ha))

/-- C8 (amended): when the `NUMERIC` input columns hold whole numbers,
every row of the final output has a strictly positive quantity. (Without
the integrality amendment a fractional quantity below one half passes the
`> 0` filter and is rounded to a zero row, see the counterexample.) -/
theorem c8_positive_rows (inp : Input) (hint : IntegralInput inp) :
    ∀ r ∈ finalShipments inp, 0 < r.shipment_qty := by
  intro r hr
  rcases List.mem_append.mp hr with hr2 | hradd
  · exact shipments1_qty_pos hint r (shipments2_subset hr2)
  · unfold adjustAdds at hradd
    obtain ⟨p', _, hpa⟩ := List.mem_flatMap.mp hradd
    rw [allocRowsP_qty_one r hpa]
    norm_num

/-- C4 (confirmed): for a product with a positive leftover pool, the
reallocation insert grants exactly one unit to each of the top-ranked
eligible branches up to the pool size, adds at most `leftover(product)`
units in total, and when fewer eligible branches exist than leftover
units it adds exactly one unit per eligible branch — the surplus is not
distributed. -/
theorem c4_leftover_capacity (inp : Input) (p : Nat)
    (hpos : 0 < leftoverOf inp p) :
    allocRowsP inp p =
      ((sortDesc (fun j => j.priority)
          ((avail2 inp).filter fun j => j.product_id == p)).take
        (leftoverOf inp p).toNat).map (fun a =>
        { branch_id := a.branch_id, product_id := p, shipment_qty := (1 : ℤ) }) ∧
    productTotal (adjustAdds inp) p ≤ leftoverOf inp p ∧
    ((((avail2 inp).filter fun j => j.product_id == p).length : ℤ) <
        leftoverOf inp p →
      productTotal (adjustAdds inp) p =
        (((avail2 inp).filter fun j => j.product_id == p).length : ℤ)) := by
  have hmem : p ∈ zeroProducts inp := by
    by_contra hnp
    have hz : productTotal (zeroedRows inp) p = 0 := by
      apply productTotal_eq_zero
      intro r hr hp
      exact hnp (List.mem_dedup.mpr (List.mem_map.mpr ⟨r, hr, hp⟩))
    rw [leftoverOf_eq, hz] at hpos
    exact lt_irrefl 0 hpos
  have htot : productTotal (adjustAdds inp) p =
      ((min (leftoverOf inp p).toNat
        ((avail2 inp).filter fun j => j.product_id == p).length : ℕ) : ℤ) := by
    rw [adjustAdds_productTotal, if_pos hmem, allocRowsP_total]
  refine ⟨allocRowsP_eq_take inp p, ?_, ?_⟩
  · rw [htot]
    omega
  · intro hlt
    rw [htot]
    omega

/-! ### Key-uniqueness of the join under the table PRIMARY KEYs -/

theorem length_filter_flatMap {α β : Type} (l : List α) (f : α → List β)
    (q : β → Bool) :
    ((l.flatMap f).filter q).length =
      (l.map fun a => ((f a).filter q).length).sum := by
  induction l with
  | nil => simp
  | cons a t ih => simp [List.flatMap_cons, List.filter_append, ih]

theorem sum_map_const_nat {α : Type} (l : List α) (c : ℕ) :
    (l.map fun _ => c).sum = l.length * c := by
  induction l with
  | nil => simp
  | cons a t ih => simp [ih]; ring

theorem length_filter_key2_le_one {α : Type} (l : List α) (k1 k2 : α → Nat)
    (c1 c2 : Nat) (h : (l.map fun a => (k1 a, k2 a)).Nodup) :
    (l.filter fun a => k1 a == c1 && k2 a == c2).length ≤ 1 := by
  induction l with
  | nil => simp
  | cons a t ih =>
    rw [List.map_cons, List.nodup_cons] at h
    rw [List.filter_cons]
    by_cases hk : (k1 a == c1 && k2 a == c2) = true
    · rw [if_pos hk]
      have hk1 : k1 a = c1 ∧ k2 a = c2 := by simpa using hk
      have ht : (t.filter fun x => k1 x == c1 && k2 x == c2) = [] := by
        rw [List.filter_eq_nil_iff]
        intro x hx hc
        have hx1 : k1 x = c1 ∧ k2 x = c2 := by simpa using hc
        exact h.1 (List.mem_map.mpr
          ⟨x, hx, by rw [hx1.1, hx1.2, hk1.1, hk1.2]⟩)
      simp [ht]
    · rw [if_neg hk]
      exact ih h.2

theorem length_filter_key1_le_one {α : Type} (l : List α) (k : α → Nat)
    (c : Nat) (h : (l.map k).Nodup) :
    (l.filter fun a => k a == c).length ≤ 1 := by
  induction l with
  | nil => simp
  | cons a t ih =>
    rw [List.map_cons, List.nodup_cons] at h
    rw [List.filter_cons]
    by_cases hk : (k a == c) = true
    · rw [if_pos hk]
      have hk1 : k a = c := by simpa using hk
      have ht : (t.filter fun x => k x == c) = [] := by
        rw [List.filter_eq_nil_iff]
        intro x hx hc
        have hx1 : k x = c := by simpa using hc
        exact h.1 (List.mem_map.mpr ⟨x, hx, by rw [hx1, hk1]⟩)
      simp [ht]
    · rw [if_neg hk]
      exact ih h.2

theorem sum_map_le_one {α : Type} (l : List α) (g : α → ℕ) (m : α → Bool)
    (h0 : ∀ a ∈ l, m a = false → g a = 0)
    (h1 : ∀ a ∈ l, g a ≤ 1)
    (hm : (l.filter m).length ≤ 1) :
    (l.map g).sum ≤ 1 := by
  induction l with
  | nil => simp
  | cons a t ih =>
    rw [List.map_cons, List.sum_cons]
    rw [List.filter_cons] at hm
    by_cases hma : m a = true
    · rw [if_pos hma] at hm
      have hlt : (t.filter m).length = 0 := by simpa using hm
      have ht0 : ∀ x ∈ t, g x = 0 := by
        intro x hx
        apply h0 x (List.mem_cons_of_mem _ hx)
        by_contra hmx
        have hmx' : m x = true := by
          cases hx2 : m x
          · exact absurd hx2 hmx
          · rfl
        have hxm : x ∈ t.filter m := List.mem_filter.mpr ⟨hx, hmx'⟩
        rw [List.length_eq_zero] at hlt
        rw [hlt] at hxm
        simp at hxm
      have hts : (t.map g).sum = 0 := List.sum_eq_zero (by
        intro y hy
        obtain ⟨x, hx, rfl⟩ := List.mem_map.mp hy
        exact ht0 x hx)
      rw [hts]
      simpa using h1 a (List.mem_cons_self a t)
    · have hmaf : m a = false := by
        cases hx2 : m a
        · rfl
        · exact absurd hx2 hma
      rw [if_neg hma] at hm
      rw [h0 a (List.mem_cons_self a t) hmaf, zero_add]
      exact ih (fun x hx => h0 x (List.mem_cons_of_mem _ hx))
        (fun x hx => h1 x (List.mem_cons_of_mem _ hx)) hm

theorem joined_pair_le_one (inp : Input) (hwf : WF inp) (b p : Nat) :
    ((joined inp).filter fun j =>
      j.branch_id == b && j.product_id == p).length ≤ 1 := by
  obtain ⟨hbp, hnd, hstn, _⟩ := hwf
  unfold joined
  rw [length_filter_flatMap]
  apply sum_map_le_one _ _
    (fun bp => bp.product_id == p && bp.branch_id == b)
  · intro bp _ hm
    rw [List.length_eq_zero, List.filter_eq_nil_iff]
    intro j hj hq
    simp only [List.mem_flatMap, List.mem_map] at hj
    obtain ⟨n, _, s, _, rfl⟩ := hj
    simp only [Bool.and_eq_true, beq_iff_eq] at hq
    have : (bp.product_id == p && bp.branch_id == b) = true := by
      simp [hq.1, hq.2]
    rw [hm] at this
    simp at this
  · intro bp _
    calc (((inp.needs.filter fun n =>
          n.branch_id == bp.branch_id && n.product_id == bp.product_id).flatMap
            fun n => (inp.stores.filter fun s =>
              s.branch_id == bp.branch_id).map fun s =>
              ({ product_id := bp.product_id, branch_id := bp.branch_id,
                 deficit := max 0 ((n.need : ℚ) -
                   (bp.stock + bp.transit - bp.reserve)),
                 priority := s.priority } : JoinedRow)).filter fun j =>
            j.branch_id == b && j.product_id == p).length
        ≤ ((inp.needs.filter fun n =>
            n.branch_id == bp.branch_id && n.product_id == bp.product_id).flatMap
              fun n => (inp.stores.filter fun s =>
                s.branch_id == bp.branch_id).map fun s =>
                ({ product_id := bp.product_id, branch_id := bp.branch_id,
                   deficit := max 0 ((n.need : ℚ) -
                     (bp.stock + bp.transit - bp.reserve)),
                   priority := s.priority } : JoinedRow)).length :=
          List.length_filter_le _ _
      _ = ((inp.needs.filter fun n =>
            n.branch_id == bp.branch_id && n.product_id == bp.product_id).map
              fun _ => (inp.stores.filter fun s =>
                s.branch_id == bp.branch_id).length).sum := by
          rw [List.length_flatMap]
          congr 1
          apply List.map_congr_left
          intro n _
          simp [List.length_map]
      _ = (inp.needs.filter fun n =>
            n.branch_id == bp.branch_id &&
              n.product_id == bp.product_id).length *
            (inp.stores.filter fun s => s.branch_id == bp.branch_id).length :=
          sum_map_const_nat _ _
      _ ≤ 1 * 1 := by
          apply Nat.mul_le_mul
          · exact length_filter_key2_le_one inp.needs
              (fun n => n.branch_id) (fun n => n.product_id) _ _ hnd
          · exact length_filter_key1_le_one inp.stores
              (fun s => s.branch_id) _ hstn
      _ = 1 := by norm_num
  · exact length_filter_key2_le_one inp.branch_products
      (fun r => r.product_id) (fun r => r.branch_id) p b hbp

theorem rankQty_length_filter (rem : ℚ) (g : FPRow → Bool) :
    ∀ (l : List FPRow) (k : Nat),
      ((rankQty rem k l).filter fun x => g x.1).length = (l.filter g).length := by
  intro l
  induction l with
  | nil => intro k; simp [rankQty]
  | cons r rs ih =>
    intro k
    rw [rankQty, List.filter_cons, List.filter_cons]
    by_cases hg : g r
    · rw [if_pos (by simpa using hg), if_pos hg]
      simp [ih (k+1)]
    · rw [if_neg (by simpa using hg), if_neg hg]
      exact ih (k+1)

theorem pairRows_append (l1 l2 : List ShipmentRow) (b p : Nat) :
    pairRows (l1 ++ l2) b p = pairRows l1 b p ++ pairRows l2 b p := by
  simp [pairRows, List.filter_append]

theorem pairRows_eq_nil {l : List ShipmentRow} {b p : Nat}
    (h : ∀ r ∈ l, r.product_id ≠ p) : pairRows l b p = [] := by
  rw [pairRows, List.filter_eq_nil_iff]
  intro r hr hc
  simp only [Bool.and_eq_true, beq_iff_eq] at hc
  exact h r hr hc.2

theorem pairRows_flatMap (ps : List Nat) (f : Nat → List ShipmentRow) (b p : Nat)
    (hps : ps.Nodup) (hf : ∀ q, ∀ r ∈ f q, r.product_id = q) :
    (pairRows (ps.flatMap f) b p).length =
      if p ∈ ps then (pairRows (f p) b p).length else 0 := by
  induction ps with
  | nil => simp [pairRows]
  | cons a t ih =>
    rw [List.flatMap_cons, pairRows_append, List.length_append]
    rcases List.nodup_cons.mp hps with ⟨ha, ht⟩
    by_cases hap : p = a
    · subst hap
      rw [if_pos (List.mem_cons_self _ _), ih ht, if_neg ha, add_zero]
    · have h0 : pairRows (f a) b p = [] :=
        pairRows_eq_nil fun r hr => by rw [hf a r hr]; exact fun hh => hap hh.symm
      rw [h0, List.length_nil, zero_add, ih ht]
      simp [List.mem_cons, hap]

theorem distRowsP_pair_le (inp : Input) (p b : Nat) :
    (pairRows (distRowsP inp p) b p).length ≤
      ((joined inp).filter fun j =>
        j.branch_id == b && j.product_id == p).length := by
  cases hS : rcTotalStock inp p with
  | none => rw [distRowsP_none hS]; simp [pairRows]
  | some S =>
    rw [distRowsP_some hS]
    unfold pairRows
    rw [List.filter_map, List.length_map]
    have hpred : ((fun r : ShipmentRow => r.branch_id == b && r.product_id == p) ∘
        fun rq : FPRow × ℚ => ({ branch_id := rq.1.branch_id, product_id := p,
                                 shipment_qty := pgNumericToInt rq.2 } :
          ShipmentRow)) =
        fun rq : FPRow × ℚ => rq.1.branch_id == b && p == p := rfl
    rw [hpred]
    simp only [beq_self_eq_true, Bool.and_true]
    calc (((rankQty (remainingP inp p S) 1
            (sortDesc (fun r => r.priority) (firstPassP inp p))).filter fun rq =>
              0 < rq.2).filter fun rq => rq.1.branch_id == b).length
        ≤ ((rankQty (remainingP inp p S) 1
            (sortDesc (fun r => r.priority) (firstPassP inp p))).filter fun rq =>
              rq.1.branch_id == b).length :=
          List.Sublist.length_le (List.Sublist.filter _ (List.filter_sublist _))
      _ = ((sortDesc (fun r => r.priority) (firstPassP inp p)).filter fun r =>
            r.branch_id == b).length :=
          rankQty_length_filter _ (fun r => r.branch_id == b) _ 1
      _ = ((firstPassP inp p).filter fun r => r.branch_id == b).length := by
          rw [← List.countP_eq_length_filter, ← List.countP_eq_length_filter]
          exact (perm_sortDesc (fun r => r.priority) (firstPassP inp p)).countP_eq _
      _ = ((availP inp p).filter fun a => a.branch_id == b).length := by
          rw [firstPassP_some hS, List.filter_map, List.length_map]
          rfl
      _ ≤ ((joined inp).filter fun j =>
            j.branch_id == b && j.product_id == p).length := by
          unfold availP
          rw [List.filter_filter]

theorem allocRowsP_pair_le (inp : Input) (p b : Nat) :
    (pairRows (allocRowsP inp p) b p).length ≤
      ((joined inp).filter fun j =>
        j.branch_id == b && j.product_id == p).length := by
  rw [allocRowsP_eq_take]
  unfold pairRows
  rw [List.filter_map, List.length_map]
  have hpred : ((fun r : ShipmentRow => r.branch_id == b && r.product_id == p) ∘
      fun a : JoinedRow => ({ branch_id := a.branch_id, product_id := p,
                              shipment_qty := (1 : ℤ) } : ShipmentRow)) =
      fun a : JoinedRow => a.branch_id == b && p == p := rfl
  rw [hpred]
  simp only [beq_self_eq_true, Bool.and_true]
  calc ((((sortDesc (fun j => j.priority)
          ((avail2 inp).filter fun j => j.product_id == p)).take
            (leftoverOf inp p).toNat).filter fun a =>
              a.branch_id == b).length)
      ≤ ((sortDesc (fun j => j.priority)
          ((avail2 inp).filter fun j => j.product_id == p)).filter fun a =>
            a.branch_id == b).length :=
        List.Sublist.length_le (List.Sublist.filter _ (List.take_sublist _ _))
    _ = (((avail2 inp).filter fun j => j.product_id == p).filter fun a =>
          a.branch_id == b).length := by
        rw [← List.countP_eq_length_filter, ← List.countP_eq_length_filter]
        exact (perm_sortDesc (fun j => j.priority)
          ((avail2 inp).filter fun j => j.product_id == p)).countP_eq _
    _ ≤ ((joined inp).filter fun j =>
          j.branch_id == b && j.product_id == p).length := by
        unfold avail2
        rw [List.filter_filter, List.filter_filter]
        rw [← List.countP_eq_length_filter, ← List.countP_eq_length_filter]
        apply List.countP_mono_left
        intro j _ hj
        simp only [Bool.and_eq_true, beq_iff_eq, decide_eq_true_eq] at hj
        simp [hj.1.1, hj.1.2]

/-- C9 (amended): under key-unique inputs the output can still hold two
rows for one (branch, product) pair — the reallocation insert appends new
rows instead of merging — but never more: at most one row from the
distribution insert and at most one from the reallocation insert. (The
claim's "at most one row per pair" fails, see the counterexample.) -/
theorem c9_pair_rows_bound (inp : Input) (hwf : WF inp) (b p : Nat) :
    (pairRows (finalShipments inp) b p).length ≤ 2 := by
  have hJ := joined_pair_le_one inp hwf b p
  have h1 : (pairRows (shipments1 inp) b p).length ≤ 1 := by
    unfold shipments1
    rw [pairRows_flatMap (productIds inp) (fun q => distRowsP inp q) b p
      (List.nodup_dedup _) (fun q r hr => distRowsP_product r hr)]
    split
    · exact le_trans (distRowsP_pair_le inp p b) hJ
    · norm_num
  have h2 : (pairRows (shipments2 inp) b p).length ≤ 1 := by
    refine le_trans ?_ h1
    apply List.Sublist.length_le
    exact List.Sublist.filter _ (List.filter_sublist _)
  have h3 : (pairRows (adjustAdds inp) b p).length ≤ 1 := by
    unfold adjustAdds
    rw [pairRows_flatMap (zeroProducts inp) (fun q => allocRowsP inp q) b p
      (List.nodup_dedup _) (fun q r hr => allocRowsP_product r hr)]
    split
    · exact le_trans (allocRowsP_pair_le inp p b) hJ
    · norm_num
  unfold finalShipments
  rw [pairRows_append, List.length_append]
  omega

/-! ### Counterexamples, concrete evaluations and witnesses -/

set_option maxHeartbeats 4000000 in
/-- C1 counterexample: an input with non-negative stock, need and priority
values (branch stocks 1/2) whose final shipments for product 1 total 3,
exceeding the total central stock 2 — the `INSERT` cast rounds 1.5 and 0.5
up. -/
theorem c1_cap_counterexample :
    NonnegInput cex1 ∧
      totalCentralStock cex1 1 <
        ((productTotal (finalShipments cex1) 1 : ℤ) : ℚ) := by
  constructor
  · exact of_decide_eq_true (by with_unfolding_all rfl)
  · exact of_decide_eq_true (by with_unfolding_all rfl)

set_option maxHeartbeats 4000000 in
/-- C1 witness at a concrete input. -/
theorem c1_product_cap_witness :
    NonnegInput winp ∧ IntegralInput winp ∧
      ((productTotal (finalShipments winp) 1 : ℤ) : ℚ) ≤
        totalCentralStock winp 1 :=
  ⟨of_decide_eq_true (by with_unfolding_all rfl),
   of_decide_eq_true (by with_unfolding_all rfl),
   c1_product_cap winp (of_decide_eq_true (by with_unfolding_all rfl))
     (of_decide_eq_true (by with_unfolding_all rfl)) 1⟩

set_option maxHeartbeats 4000000 in
/-- C2 counterexample: the (branch 1, product 1) pair has deficit 0 in the
join, yet the final output contains the row (1, 1, 1). -/
theorem c2_counterexample :
    (∀ j ∈ joined cex2, j.branch_id = 1 → j.product_id = 1 → j.deficit = 0) ∧
      (⟨1, 1, 1⟩ : ShipmentRow) ∈ finalShipments cex2 := by
  constructor
  · exact of_decide_eq_true (by with_unfolding_all rfl)
  · exact of_decide_eq_true (by with_unfolding_all rfl)

set_option maxHeartbeats 4000000 in
/-- C2 witness at a concrete input. -/
theorem c2_zero_deficit_bound_witness :
    (∀ j ∈ joined cex2, j.branch_id = 1 → j.product_id = 1 → j.deficit = 0) ∧
      ∀ r ∈ finalShipments cex2, r.branch_id = 1 → r.product_id = 1 →
        r.shipment_qty ≤ 1 :=
  ⟨of_decide_eq_true (by with_unfolding_all rfl),
   c2_zero_deficit_bound cex2 1 1
     (of_decide_eq_true (by with_unfolding_all rfl))⟩

set_option maxHeartbeats 4000000 in
/-- C3 witness: branch 2 of `cex9` totals 4 < 10 after the distribution
statement, so the pruning conclusions hold there. -/
theorem c3_threshold_pruning_witness :
    ((⟨2, 2, 10⟩ : StoreRow) ∈ cex9.stores ∧
      totalShipment (shipments1 cex9) 2 < 10) ∧
    ((shipments2 cex9).filter (fun r => r.branch_id == 2) = [] ∧
      (∀ p, productTotal (shipments1 cex9) p =
        productTotal (shipments2 cex9) p + leftoverOf cex9 p) ∧
      (∀ t ∈ cex9.stores, totalShipment (shipments2 cex9) t.branch_id = 0 ∨
        t.min_shipment ≤ totalShipment (shipments2 cex9) t.branch_id)) :=
  ⟨⟨of_decide_eq_true (by with_unfolding_all rfl),
    of_decide_eq_true (by with_unfolding_all rfl)⟩,
   c3_threshold_pruning cex9 ⟨2, 2, 10⟩
     (of_decide_eq_true (by with_unfolding_all rfl))
     (of_decide_eq_true (by with_unfolding_all rfl))⟩

set_option maxHeartbeats 4000000 in
/-- C4 witness: product 1 of `cex9` has leftover pool 4 after pruning. -/
theorem c4_leftover_capacity_witness :
    0 < leftoverOf cex9 1 ∧
    (allocRowsP cex9 1 =
      ((sortDesc (fun j => j.priority)
          ((avail2 cex9).filter fun j => j.product_id == 1)).take
        (leftoverOf cex9 1).toNat).map (fun a =>
        { branch_id := a.branch_id, product_id := 1, shipment_qty := (1 : ℤ) }) ∧
    productTotal (adjustAdds cex9) 1 ≤ leftoverOf cex9 1 ∧
    ((((avail2 cex9).filter fun j => j.product_id == 1).length : ℤ) <
        leftoverOf cex9 1 →
      productTotal (adjustAdds cex9) 1 =
        (((avail2 cex9).filter fun j => j.product_id == 1).length : ℤ))) :=
  ⟨of_decide_eq_true (by with_unfolding_all rfl),
   c4_leftover_capacity cex9 1 (of_decide_eq_true (by with_unfolding_all rfl))⟩

set_option maxHeartbeats 4000000 in
/-- C5 counterexample: non-negative quantities and positive priorities,
but a fractional central stock of 1/2 is rounded up to 1 by the `BIGINT`
cast and the first pass ships a full unit — more than the central stock. -/
theorem c5_counterexample :
    (∀ r ∈ cex5.branch_products, 0 ≤ r.stock ∧ 0 ≤ r.reserve ∧ 0 ≤ r.transit) ∧
    (∀ r ∈ cex5.rc_products, 0 ≤ r.stock) ∧
    (∀ n ∈ cex5.needs, 0 ≤ n.need) ∧
    (∀ s ∈ cex5.stores, 0 < s.priority) ∧
    totalCentralStock cex5 1 < ((firstPassP cex5 1).map fun r => r.shipped).sum := by
  refine ⟨?_, ?_, ?_, ?_, ?_⟩ <;>
    exact of_decide_eq_true (by with_unfolding_all rfl)

set_option maxHeartbeats 4000000 in
/-- C5 witness at a concrete input. -/
theorem c5_first_pass_bounds_witness :
    ((∀ r ∈ winp.branch_products, 0 ≤ r.stock ∧ 0 ≤ r.reserve ∧ 0 ≤ r.transit) ∧
     (∀ r ∈ winp.rc_products, 0 ≤ r.stock) ∧
     (∀ n ∈ winp.needs, 0 ≤ n.need) ∧
     (∀ s ∈ winp.stores, 0 < s.priority) ∧
     (∀ r ∈ winp.rc_products, IsInt r.stock)) ∧
    ((∀ r ∈ firstPassP winp 1, r.shipped ≤ r.deficit) ∧
      ((firstPassP winp 1).map fun r => r.shipped).sum ≤ totalCentralStock winp 1) :=
  ⟨⟨of_decide_eq_true (by with_unfolding_all rfl),
    of_decide_eq_true (by with_unfolding_all rfl),
    of_decide_eq_true (by with_unfolding_all rfl),
    of_decide_eq_true (by with_unfolding_all rfl),
    of_decide_eq_true (by with_unfolding_all rfl)⟩,
   c5_first_pass_bounds winp
     (of_decide_eq_true (by with_unfolding_all rfl))
     (of_decide_eq_true (by with_unfolding_all rfl))
     (of_decide_eq_true (by with_unfolding_all rfl))
     (of_decide_eq_true (by with_unfolding_all rfl))
     (of_decide_eq_true (by with_unfolding_all rfl)) 1⟩

set_option maxHeartbeats 4000000 in
/-- C6 counterexample: product 1 of `cex6` has total weight 0, yet the
final output holds the row (1, 1, 1) — the remainder bonus materialises a
row for a product nobody needs. -/
theorem c6_counterexample :
    totalWeight cex6 1 = 0 ∧ (⟨1, 1, 1⟩ : ShipmentRow) ∈ finalShipments cex6 := by
  constructor
  · exact of_decide_eq_true (by with_unfolding_all rfl)
  · exact of_decide_eq_true (by with_unfolding_all rfl)

/-- C6 witness at a concrete input. -/
theorem c6_zero_weight_share_witness :
    totalWeight cex6 1 = 0 ∧ ∀ r ∈ firstPassP cex6 1, r.shipped = 0 :=
  ⟨of_decide_eq_true (by with_unfolding_all rfl),
   c6_zero_weight_share cex6 1 (of_decide_eq_true (by with_unfolding_all rfl))⟩

set_option maxHeartbeats 4000000 in
/-- C7: the code performs no input validation. On an input with a negative
branch stock the run is not rejected: the negative stock feeds the deficit
formula (`GREATEST` clamps only the deficit) and the pipeline ships four
units. -/
theorem c7_negative_input_not_rejected :
    (∃ r ∈ cex7.branch_products, r.stock < 0) ∧
      finalShipments cex7 = [⟨1, 1, 4⟩] := by
  constructor
  · exact of_decide_eq_true (by with_unfolding_all rfl)
  · with_unfolding_all rfl

set_option maxHeartbeats 4000000 in
/-- C8 counterexample: the final output of `cex8` contains the row
(1, 1, 0) — a fractional quantity 2/5 passes the `> 0` filter and the
`INT` cast rounds it to zero. -/
theorem c8_counterexample :
    (⟨1, 1, 0⟩ : ShipmentRow) ∈ finalShipments cex8 ∧
      ∃ r ∈ finalShipments cex8, r.shipment_qty ≤ 0 := by
  constructor
  · exact of_decide_eq_true (by with_unfolding_all rfl)
  · exact of_decide_eq_true (by with_unfolding_all rfl)

set_option maxHeartbeats 4000000 in
/-- C8 witness at a concrete input. -/
theorem c8_positive_rows_witness :
    IntegralInput winp ∧ ∀ r ∈ finalShipments winp, 0 < r.shipment_qty :=
  ⟨of_decide_eq_true (by with_unfolding_all rfl),
   c8_positive_rows winp (of_decide_eq_true (by with_unfolding_all rfl))⟩

set_option maxHeartbeats 4000000 in
/-- C9 counterexample: `cex9` is key-unique, yet the final output holds
two rows for the pair (branch 1, product 1): the reallocation appended a
new row instead of merging. -/
theorem c9_counterexample :
    WF cex9 ∧ (pairRows (finalShipments cex9) 1 1).length = 2 := by
  constructor
  · exact of_decide_eq_true (by with_unfolding_all rfl)
  · exact of_decide_eq_true (by with_unfolding_all rfl)

/-- C9 witness at a concrete input. -/
theorem c9_pair_rows_bound_witness :
    WF winp ∧ (pairRows (finalShipments winp) 1 1).length ≤ 2 :=
  ⟨of_decide_eq_true (by with_unfolding_all rfl),
   c9_pair_rows_bound winp (of_decide_eq_true (by with_unfolding_all rfl)) 1 1⟩

set_option maxHeartbeats 4000000 in
/-- C10 counterexample: on Scenario B (central stock 11, deficits 5/5,
priorities 2/3, thresholds 1) the code ships 5 and 6, not the claimed 4
and 7: the `LEAST(..., deficit)` cap trims the priority-3 branch's floor
share from 6 to 5, so the remainder is 2 and both branches get a bonus. -/
theorem c10_counterexample :
    finalShipments (c10inp 1 1) = [⟨2, 1, 6⟩, ⟨1, 1, 5⟩] ∧
      ¬ (pairTotal (finalShipments (c10inp 1 1)) 1 1 = 4 ∧
         pairTotal (finalShipments (c10inp 1 1)) 2 1 = 7) := by
  constructor
  · with_unfolding_all rfl
  · exact of_decide_eq_true (by with_unfolding_all rfl)

/-- The distribution statement never reads `stores.min_shipment`: inputs
with the same join and the same central stock produce the same first
insert. -/
theorem shipments1_congr {inp1 inp2 : Input}
    (hj : joined inp1 = joined inp2)
    (hrc : inp1.rc_products = inp2.rc_products) :
    shipments1 inp1 = shipments1 inp2 := by
  have hrcR : ∀ p, rcRows inp1 p = rcRows inp2 p := fun p => by
    unfold rcRows; rw [hrc]
  have hrcT : ∀ p, rcTotalStock inp1 p = rcTotalStock inp2 p := fun p => by
    unfold rcTotalStock; rw [hrcR p]
  have hav : ∀ p, availP inp1 p = availP inp2 p := fun p => by
    unfold availP; rw [hj]
  have htw : ∀ p, totalWeight inp1 p = totalWeight inp2 p := fun p => by
    unfold totalWeight; rw [hav p]
  have hfp : ∀ p, firstPassP inp1 p = firstPassP inp2 p := fun p => by
    unfold firstPassP; rw [hrcT p, hav p, htw p]
  have hrem : ∀ p S, remainingP inp1 p S = remainingP inp2 p S := fun p S => by
    unfold remainingP; rw [hfp p]
  have hdr : ∀ p, distRowsP inp1 p = distRowsP inp2 p := fun p => by
    cases hS : rcTotalStock inp2 p with
    | none => rw [distRowsP_none ((hrcT p).trans hS), distRowsP_none hS]
    | some S =>
      rw [distRowsP_some ((hrcT p).trans hS), distRowsP_some hS, hrem p S, hfp p]
  have hpi : productIds inp1 = productIds inp2 := by
    unfold productIds; rw [hj]
  unfold shipments1
  rw [hpi]
  congr 1
  funext p
  exact hdr p

set_option maxHeartbeats 4000000 in
/-- C10 (amended): on Scenario B the first pass ships 4 and 5 (the
deficit cap binds for the priority-3 branch), the remainder of 2 units
gives both branches a +1 bonus, and — for any thresholds not exceeding
the resulting totals 5 and 6 — the final shipments are 5 and 6. -/
theorem c10_scenario_b (m1 m2 : ℤ) (h1 : m1 ≤ 5) (h2 : m2 ≤ 6) :
    finalShipments (c10inp m1 m2) = [⟨2, 1, 6⟩, ⟨1, 1, 5⟩] := by
  have e1 : shipments1 (c10inp m1 m2) = [⟨2, 1, 6⟩, ⟨1, 1, 5⟩] := by
    have hcongr : shipments1 (c10inp m1 m2) = shipments1 (c10inp 1 1) :=
      shipments1_congr (by with_unfolding_all rfl) rfl
    rw [hcongr]
    with_unfolding_all rfl
  have ht2 : totalShipment [(⟨2, 1, 6⟩ : ShipmentRow), ⟨1, 1, 5⟩] 2 = 6 := by
    with_unfolding_all rfl
  have ht1 : totalShipment [(⟨2, 1, 6⟩ : ShipmentRow), ⟨1, 1, 5⟩] 1 = 5 := by
    with_unfolding_all rfl
  have hb2 : prunedB (c10inp m1 m2) [⟨2, 1, 6⟩, ⟨1, 1, 5⟩] 2 = false := by
    simp only [prunedB, c10inp, ht2]
    simp [show ¬((6 : ℤ) < m2) by omega]
  have hb1 : prunedB (c10inp m1 m2) [⟨2, 1, 6⟩, ⟨1, 1, 5⟩] 1 = false := by
    simp only [prunedB, c10inp, ht1]
    simp [show ¬((5 : ℤ) < m1) by omega]
  unfold finalShipments shipments2 adjustAdds zeroProducts zeroedRows
  simp only [e1]
  simp [List.filter_cons, hb1, hb2]

set_option maxHeartbeats 4000000 in
/-- C10 witness: thresholds 1 satisfy the hypotheses. -/
theorem c10_scenario_b_witness :
    ((1 : ℤ) ≤ 5 ∧ (1 : ℤ) ≤ 6) ∧
      finalShipments (c10inp 1 1) = [⟨2, 1, 6⟩, ⟨1, 1, 5⟩] :=
  ⟨⟨by norm_num, by norm_num⟩,
   c10_scenario_b 1 1 (by norm_num) (by norm_num)⟩

end Distribute
